import Mathlib

/-!
Shallow embedding of the diff-context and review-protocol core of the
`the-true-scotsman` repository
(`src/tools/langchain_clis/src/langchain_clis/shared/git_context.py`,
`.../code_review/validation.py`, `.../code_review/report.py`,
`.../code_review/runner.py`), followed by theorems checking the
specification's claims against it.

Python strings are modelled as `List Char` (with `String` wrappers at the
boundary), Python `int` as `Int`, fallible code as `Option`/`Except`.
Each definition states in its doc comment which source function or lines
it embeds.
-/

namespace Scotsman

/-! ### Python string primitives -/

/-- Python whitespace for `str.strip`/`str.split` and the regex class `\s`
(ASCII part; the development never feeds non-ASCII whitespace). -/
def pyIsSpace (c : Char) : Bool :=
  c = ' ' || c = '\t' || c = '\n' || c = '\r' || c = '\x0b' || c = '\x0c'

/-- `pat` is a prefix of `l` (Python `str.startswith`). -/
def startsWithL : List Char → List Char → Bool
  | [], _ => true
  | _ :: _, [] => false
  | p :: ps, c :: cs => p = c && startsWithL ps cs

/-- Split at the first occurrence of `sep` (non-overlapping, left-to-right):
returns the part before it and the part after it, or `none` when `sep` does
not occur.  Building block for Python `str.split(sep)` /
`str.split(sep, 1)`. -/
def splitFirst (sep : List Char) : List Char → Option (List Char × List Char)
  | [] => if sep = [] then some ([], []) else none
  | c :: rest =>
    if startsWithL sep (c :: rest) then some ([], (c :: rest).drop sep.length)
    else (splitFirst sep rest).map (fun pr => (c :: pr.1, pr.2))

/-- Python `str.split(ch)` for a single-character separator: splits at every
occurrence, keeping empty parts. -/
def splitCharL (sep : Char) : List Char → List (List Char)
  | [] => [[]]
  | c :: rest =>
    if c = sep then [] :: splitCharL sep rest
    else
      match splitCharL sep rest with
      | [] => [[c]]
      | h :: t => (c :: h) :: t

/-- Python `str.splitlines()` for text whose only line terminator is
`'\n'` (the only terminator this development produces): split at every
newline and drop a final empty piece. -/
def splitLinesL (l : List Char) : List (List Char) :=
  let parts := splitCharL '\n' l
  if parts.getLast? = some [] then parts.dropLast else parts

/-- Python `str.lstrip()`. -/
def lstripL (l : List Char) : List Char := l.dropWhile pyIsSpace

/-- Python `str.rstrip()`. -/
def rstripL (l : List Char) : List Char := (l.reverse.dropWhile pyIsSpace).reverse

/-- Python `str.strip()`. -/
def pyStripL (l : List Char) : List Char := rstripL (lstripL l)

/-- Python `str.split(maxsplit=1)` (split on whitespace runs, at most one
split, leading/trailing whitespace discarded). -/
def pySplitWsMax1 (l : List Char) : List (List Char) :=
  let l1 := l.dropWhile pyIsSpace
  if l1 = [] then []
  else
    let tok := l1.takeWhile (fun c => !pyIsSpace c)
    let rest := l1.dropWhile (fun c => !pyIsSpace c)
    let r := rest.dropWhile pyIsSpace
    if r = [] then [tok] else [tok, r]

/-- Python `s.split()[0]`: first whitespace-separated token (`none` models
the `IndexError` raised when `s.split()` is empty).  The source only ever
uses element `[0]` of a no-argument `split()`. -/
def pySplitWsHead (l : List Char) : Option (List Char) :=
  match pySplitWsMax1 l with
  | [] => none
  | tok :: _ => some tok

/-- Python slice `l[a:b]` with `int` endpoints (negative indices count from
the end, out-of-range indices clamp). -/
def pySlice (l : List α) (a b : Int) : List α :=
  let n : Int := l.length
  let lo : Int := if a < 0 then max 0 (n + a) else min a n
  let hi : Int := if b < 0 then max 0 (n + b) else min b n
  (l.drop lo.toNat).take (hi - lo).toNat

/-- Python slice `l[:b]`. -/
def pySliceTo (l : List α) (b : Int) : List α := pySlice l 0 b

/-- `pat` occurs as a contiguous sublist of `l` (Python `pat in s`). -/
def containsSubL (pat : List Char) : List Char → Bool
  | [] => pat = []
  | c :: rest => startsWithL pat (c :: rest) || containsSubL pat rest

/-- The numeric value of a digit string (most significant digit first). -/
def digitsVal (l : List Char) : Nat :=
  l.foldl (fun acc c => acc * 10 + (c.toNat - 48)) 0

/-- Python `int(s)` on an unsigned digit string: its value, or `none`
(`ValueError`) when `s` is empty or holds a non-digit. -/
def digitsOf (l : List Char) : Option Nat :=
  if l ≠ [] ∧ l.all Char.isDigit then some (digitsVal l) else none

/-- Python `int(s)` restricted to an optional sign followed by ASCII
digits.  (Python additionally tolerates surrounding whitespace and
underscores between digits; no string this development evaluates or
quantifies over uses those forms.) -/
def pyInt (l : List Char) : Option Int :=
  match l with
  | [] => none
  | ch :: rest =>
    if ch = '+' then (digitsOf rest).map (fun n => (n : Int))
    else if ch = '-' then (digitsOf rest).map (fun n => -(n : Int))
    else (digitsOf (ch :: rest)).map (fun n => (n : Int))

/-! ### git_context.py -/

/-- `Hunk` (git_context.py lines 53-56): the `+` side range of one diff
hunk. -/
structure Hunk where
  newStart : Int
  newCount : Int
  deriving DecidableEq, Repr

/-- `FileChange` (git_context.py lines 59-62). -/
structure FileChange where
  path : List Char
  hunks : List Hunk
  deriving DecidableEq, Repr

/-- The literal `"@@ "`. -/
def atAtSpace : List Char := ("@@ ").data

/-- The literal `"@@"`. -/
def atAt : List Char := ("@@").data

/-- Python `line.split("@@")[1]` for a line already known to start with
`"@@"`: the text between the first occurrence of `"@@"` (at position 0)
and the next one, or everything after the first when there is no
second occurrence. -/
def part1AfterAtAt (l : List Char) : List Char :=
  match splitFirst atAt (l.drop 2) with
  | some pr => pr.1
  | none => l.drop 2

/-- `_parse_hunk_header` (git_context.py lines 65-80).  All the failure
modes the Python `except Exception` swallows (`IndexError` from `[1]`,
`StopIteration` from `next`, `ValueError` from `int`) are the `none`
branches. -/
def parseHunkHeaderL (l : List Char) : Option Hunk :=
  if startsWithL atAtSpace l then
    match (splitCharL ' ' (pyStripL (part1AfterAtAt l))).find?
        (fun p => startsWithL ['+'] p) with
    | none => none
    | some newPart =>
      if (newPart.drop 1).contains ',' then
        match splitFirst [','] (newPart.drop 1) with
        | some pr =>
          match pyInt pr.1, pyInt pr.2 with
          | some s, some c => some ⟨s, c⟩
          | _, _ => none
        | none => none
      else
        match pyInt (newPart.drop 1) with
        | some s => some ⟨s, 1⟩
        | none => none
  else none

/-- The literal `"diff --git "`. -/
def diffGitPre : List Char := ("diff --git ").data

/-- The literal `"+++ "`. -/
def plusPlusPre : List Char := ("+++ ").data

/-- The literal `"b/"`. -/
def bSlashPre : List Char := ("b/").data

/-- The flush in `parse_unified_diff` (git_context.py lines 90-91 and
107-108): a `FileChange` is appended only when a path was captured. -/
def flushFC (cur : Option (List Char)) (hs : List Hunk) : List FileChange :=
  match cur with
  | some p => [⟨p, hs⟩]
  | none => []

/-- The loop of `parse_unified_diff` (git_context.py lines 83-110), with
the mutable `current_path` / `hunks` / `files` state passed explicitly. -/
def parseGo : Option (List Char) → List Hunk → List FileChange → List (List Char) →
    List FileChange
  | cur, hs, acc, [] => acc ++ flushFC cur hs
  | cur, hs, acc, raw :: rest =>
    if startsWithL diffGitPre raw then
      parseGo none [] (acc ++ flushFC cur hs) rest
    else if startsWithL plusPlusPre raw then
      match pySplitWsMax1 raw with
      | [_, second] =>
        if startsWithL bSlashPre second then parseGo (some (second.drop 2)) hs acc rest
        else parseGo cur hs acc rest
      | _ => parseGo cur hs acc rest
    else
      match parseHunkHeaderL raw with
      | some h => parseGo cur (hs ++ [h]) acc rest
      | none => parseGo cur hs acc rest

/-- `parse_unified_diff` (git_context.py lines 83-110) at the level of the
already-split line list. -/
def parseUnifiedDiffLines (ls : List (List Char)) : List FileChange :=
  parseGo none [] [] ls

/-- `parse_unified_diff` on the diff text itself. -/
def parse_unified_diff (s : String) : List FileChange :=
  parseUnifiedDiffLines (splitLinesL s.data)

/-- The sort order Python `sorted` uses on the `(start, end)` interval
tuples in `_merge_intervals`: lexicographic.  Because the whole tuple is
the sort key, the sorted result is unique, so any sorting algorithm
models Python's stable sort exactly. -/
def pairLe (p q : Int × Int) : Prop :=
  p.1 < q.1 ∨ (p.1 = q.1 ∧ p.2 ≤ q.2)

instance : DecidableRel pairLe := fun p q =>
  inferInstanceAs (Decidable (p.1 < q.1 ∨ (p.1 = q.1 ∧ p.2 ≤ q.2)))

instance : IsTotal (Int × Int) pairLe where
  total p q := by
    rcases lt_trichotomy p.1 q.1 with h | h | h
    · exact Or.inl (Or.inl h)
    · rcases le_total p.2 q.2 with h2 | h2
      · exact Or.inl (Or.inr ⟨h, h2⟩)
      · exact Or.inr (Or.inr ⟨h.symm, h2⟩)
    · exact Or.inr (Or.inl h)

instance : IsTrans (Int × Int) pairLe where
  trans p q rr hpq hqr := by
    rcases hpq with h | ⟨he, h2⟩ <;> rcases hqr with h' | ⟨he', h2'⟩
    · exact Or.inl (h.trans h')
    · exact Or.inl (he' ▸ h)
    · exact Or.inl (he ▸ h')
    · exact Or.inr ⟨he.trans he', h2.trans h2'⟩

/-- The merge loop of `_merge_intervals` (git_context.py lines 116-124),
with the `merged` list represented as the already-frozen part (emitted in
the result) plus the current last interval `(cs, ce)`, which is the only
one the Python loop ever mutates. -/
def mergeGo : Int → Int → List (Int × Int) → List (Int × Int)
  | cs, ce, [] => [(cs, ce)]
  | cs, ce, (s, e) :: rest =>
    if s ≤ ce + 1 then mergeGo cs (max ce e) rest
    else (cs, ce) :: mergeGo s e rest

/-- `_merge_intervals` (git_context.py lines 113-125): keep the intervals
with `start <= end`, sort them, then merge adjacent/overlapping ones. -/
def mergeIntervals (xs : List (Int × Int)) : List (Int × Int) :=
  match List.insertionSort pairLe (xs.filter (fun p => decide (p.1 ≤ p.2))) with
  | [] => []
  | (s, e) :: rest => mergeGo s e rest

/-- The raw excerpt interval of one hunk (git_context.py lines 147-148):
`start = max(1, new_start - context_lines)`,
`end = min(file_length, new_start + max(new_count - 1, 0) + context_lines)`. -/
def rawInterval (fileLen contextLines : Int) (h : Hunk) : Int × Int :=
  (max 1 (h.newStart - contextLines),
   min fileLen (h.newStart + max (h.newCount - 1) 0 + contextLines))

/-- The merged excerpt windows of one file (git_context.py lines 145-150). -/
def fileWindows (lines : List String) (hunks : List Hunk) (contextLines : Int) :
    List (Int × Int) :=
  mergeIntervals (hunks.map (rawInterval (lines.length : Int) contextLines))

/-- The emission loop of `build_line_excerpts` (git_context.py lines
152-163), collecting for each emitted window its start line and the chunk
of source lines printed with line numbers.  `total` is the running count
of emitted numbered lines; the loop stops once it reaches the cap and
truncates the chunk that would cross it (`chunk[:remaining]`). -/
def emitChunks (lines : List String) (cap : Int) : Int → List (Int × Int) →
    List (Int × List String)
  | _, [] => []
  | total, (s, e) :: rest =>
    if cap ≤ total then []
    else
      let chunk0 := pySlice lines (s - 1) e
      let remaining := cap - total
      let chunk := pySliceTo chunk0 remaining
      (s, chunk) :: emitChunks lines cap (total + chunk.length) rest

/-- The per-file core of `build_line_excerpts` (git_context.py lines
145-163): the windows actually emitted for one file, as (start, chunk)
pairs.  (The surrounding code does file I/O — absent/binary files are
skipped — and renders each pair as a header plus numbered lines;
the numbered source lines emitted are exactly the chunk elements.) -/
def fileExcerptChunks (lines : List String) (hunks : List Hunk)
    (contextLines cap : Int) : List (Int × List String) :=
  emitChunks lines cap 0 (fileWindows lines hunks contextLines)

/-- Total number of numbered source lines emitted for one file. -/
def emittedLineCount (lines : List String) (hunks : List Hunk)
    (contextLines cap : Int) : Nat :=
  ((fileExcerptChunks lines hunks contextLines cap).map (fun pr => pr.2.length)).sum

/-! ### validation.py

The finding-id pattern in the source is
`re.compile(r"^###\s+([A-Z0-9]+-\d{2})\\b", re.MULTILINE)`.
Note the `\\b` inside a *raw* string: it is the regex `\\` (a literal
backslash) followed by a literal `b`, not a word boundary.  A match
therefore requires the two characters `\` `b` right after the two
digits.  The scanner below implements exactly that pattern.  Backtracking
never arises: the character classes `\s`, `[A-Z0-9]` and the literals
around them are pairwise disjoint, so the greedy `\s+`/`[A-Z0-9]+` runs
are forced. -/

/-- The class `[A-Z0-9]`. -/
def isIdChar (c : Char) : Bool :=
  ('A' ≤ c && c ≤ 'Z') || ('0' ≤ c && c ≤ '9')

/-- One anchored attempt of `_FINDING_ID_RE` at the current position:
`###`, then `\s+` (which may cross newlines), then the group
`[A-Z0-9]+-\d{2}`, then the literal characters `\` `b`.  Returns the
group and the rest of the text after the match. -/
def matchIdAt : List Char → Option (List Char × List Char)
  | '#' :: '#' :: '#' :: rest =>
    if rest.takeWhile pyIsSpace = [] then none
    else
      let r1 := rest.dropWhile pyIsSpace
      let run := r1.takeWhile isIdChar
      if run = [] then none
      else
        match r1.dropWhile isIdChar with
        | '-' :: d1 :: d2 :: '\\' :: 'b' :: r2 =>
          if d1.isDigit && d2.isDigit then some (run ++ ['-', d1, d2], r2) else none
        | _ => none
  | _ => none

/-- `_FINDING_ID_RE.findall` (validation.py line 13 / `_extract_ids` lines
16-17): scan the text, attempting the anchored pattern at the start of the
string and after every newline, resuming after each match.  `fuel` is an
upper bound on the number of scanning steps (each consumes at least one
character, so `length + 1` suffices). -/
def extractIdsGo : Nat → List Char → Bool → List (List Char)
  | 0, _, _ => []
  | _ + 1, [], _ => []
  | fuel + 1, c :: rest, atStart =>
    if atStart then
      match matchIdAt (c :: rest) with
      | some (id, r2) => id :: extractIdsGo fuel r2 false
      | none => extractIdsGo fuel rest (c = '\n')
    else extractIdsGo fuel rest (c = '\n')

/-- `_extract_ids` (validation.py lines 16-17). -/
def extractIdsL (l : List Char) : List (List Char) :=
  extractIdsGo (l.length + 1) l true

/-- One anchored attempt of the `re.split(r"^###\s+", ...)` pattern used
by `_block_for_id` (validation.py line 89): `###` then `\s+` (greedy, may
cross newlines).  Returns the rest of the text after the match. -/
def matchBlockSepAt : List Char → Option (List Char)
  | '#' :: '#' :: '#' :: rest =>
    if rest.takeWhile pyIsSpace = [] then none else some (rest.dropWhile pyIsSpace)
  | _ => none

/-- `re.split(r"^###\s+", text, flags=re.MULTILINE)` (validation.py line
89): the pieces of the text between matches of the separator pattern
(separator matches are attempted at line starts only and removed). -/
def splitBlocksGo : Nat → List Char → List Char → Bool → List (List Char)
  | 0, acc, _, _ => [acc.reverse]
  | _ + 1, acc, [], _ => [acc.reverse]
  | fuel + 1, acc, c :: rest, atStart =>
    if atStart then
      match matchBlockSepAt (c :: rest) with
      | some r2 => acc.reverse :: splitBlocksGo fuel [] r2 false
      | none => splitBlocksGo fuel (c :: acc) rest (c = '\n')
    else splitBlocksGo fuel (c :: acc) rest (c = '\n')

/-- `_block_for_id` (validation.py lines 88-93): split the text at
`^###\s+` matches and return the first piece that starts with the finding
id, or the empty string. -/
def blockForId (text : List Char) (findingId : List Char) : List Char :=
  let parts := splitBlocksGo (text.length + 1) [] text true
  match parts.find? (fun part => startsWithL findingId part) with
  | some part => part
  | none => []

/-- The `ValidationError`s of validation.py, one constructor per `raise`
site (identified by site rather than by message text). -/
inductive VError where
  /-- "No findings found (expected ...)." (line 23) -/
  | noFindings : VError
  /-- "Too many findings: n (max m)." (line 25) -/
  | tooManyFindings (n : Nat) : VError
  /-- "Duplicate finding IDs." (line 27) -/
  | duplicateIds : VError
  /-- "id missing required field: f" (line 34) -/
  | missingField (id field : List Char) : VError
  /-- "Cannot validate defense/verdict without critique IDs." (lines 40, 58) -/
  | noCritiqueIds : VError
  /-- "Defense/Rebuttal IDs mismatch." (lines 43, 51) -/
  | idsMismatch : VError
  /-- "Verdict missing required sections ..." (line 61) -/
  | missingSections : VError
  /-- "Verdict contains no finding IDs." (line 65) -/
  | noVerdictIds : VError
  /-- "Verdict missing finding IDs: ..." (line 69) -/
  | missingVerdictIds : VError
  /-- "Unexpected status values: ..." (line 85) -/
  | badStatus (bad : List (List Char)) : VError
  /-- An uncaught `IndexError` from `.split()[0]` on a `### ` line whose
  text after the em-dash is blank (line 81); not a `ValidationError` in
  the source, but it likewise aborts validation. -/
  | indexError : VError
  deriving DecidableEq, Repr

/-- The three required critique fields (validation.py line 29). -/
def requiredFields : List (List Char) :=
  [("- Location:").data, ("- Evidence:").data, ("- Fix:").data]

/-- The field loop of `validate_critique` (validation.py lines 30-34). -/
def checkFields (text : List Char) : List (List Char) → Except VError Unit
  | [] => .ok ()
  | id :: rest =>
    let block := blockForId text id
    match (requiredFields.find? (fun f => !containsSubL f block)) with
    | some f => .error (.missingField id f)
    | none => checkFields text rest

/-- `validate_critique` (validation.py lines 20-34). -/
def validateCritiqueL (text : List Char) (maxFindings : Int) : Except VError Unit :=
  let ids := extractIdsL text
  if ids = [] then .error .noFindings
  else if (ids.length : Int) > maxFindings then .error (.tooManyFindings ids.length)
  else if ids.dedup.length ≠ ids.length then .error .duplicateIds
  else checkFields text ids

/-- `validate_critique` on strings. -/
def validate_critique (text : String) (maxFindings : Int) : Except VError Unit :=
  validateCritiqueL text.data maxFindings

/-- The per-line body of `_validate_status_headers` (validation.py lines
75-83): `none` when the line is skipped (not a stripped `### ` line, or no
em-dash in it), otherwise the extracted status token (`none` inside = the
`IndexError` when nothing follows the em-dash). -/
def statusOfLine (raw : List Char) : Option (Option (List Char)) :=
  let line := pyStripL raw
  if !startsWithL ("### ").data line then none
  else if !containsSubL [('—' : Char)] line then none
  else
    match splitFirst [('—' : Char)] line with
    | some pr => some (pySplitWsHead (pyStripL pr.2))
    | none => none

/-- The collection loop of `_validate_status_headers` (validation.py lines
74-83), accumulating the `bad` list; an `IndexError` aborts. -/
def collectBad (allowed : List (List Char)) : List (List Char) →
    Except VError (List (List Char))
  | [] => .ok []
  | raw :: rest =>
    match statusOfLine raw with
    | none => collectBad allowed rest
    | some none => .error .indexError
    | some (some status) =>
      match collectBad allowed rest with
      | .error e => .error e
      | .ok bad =>
        if allowed.contains status then .ok bad else .ok (status :: bad)

/-- `_validate_status_headers` (validation.py lines 72-85).  The source
reports `sorted(set(bad))` in its error message; the error here carries
the collected list in line order — only whether the list is empty decides
acceptance, which is all the claims depend on. -/
def validateStatusHeaders (text : List Char) (allowed : List (List Char)) :
    Except VError Unit :=
  match collectBad allowed (splitLinesL text) with
  | .error e => .error e
  | .ok [] => .ok ()
  | .ok bad => .error (.badStatus bad)

/-- Python `set(a) != set(b)` on id lists, as membership equivalence. -/
def sameIdSet (a b : List (List Char)) : Bool :=
  a.all (fun x => b.contains x) && b.all (fun x => a.contains x)

/-- `validate_defense` (validation.py lines 37-44). -/
def validateDefenseL (defenseText critiqueText : List Char) : Except VError Unit :=
  let expected := extractIdsL critiqueText
  if expected = [] then .error .noCritiqueIds
  else
    let found := extractIdsL defenseText
    if !sameIdSet found expected then .error .idsMismatch
    else validateStatusHeaders defenseText
      [("ACCEPT").data, ("DISPUTE").data, ("CONTEXT").data]

/-- `validate_defense` on strings. -/
def validate_defense (defenseText critiqueText : String) : Except VError Unit :=
  validateDefenseL defenseText.data critiqueText.data

/-- `validate_rebuttal` (validation.py lines 47-52).  Note: unlike the
defense/verdict validators it does not reject an empty critique id list
first. -/
def validateRebuttalL (rebuttalText critiqueText : List Char) : Except VError Unit :=
  let expected := extractIdsL critiqueText
  let found := extractIdsL rebuttalText
  if !sameIdSet found expected then .error .idsMismatch
  else validateStatusHeaders rebuttalText
    [("CONCEDE").data, ("MAINTAIN").data, ("ESCALATE").data]

/-- The literal `"## CONFIRMED"`. -/
def headingConfirmed : List Char := ("## CONFIRMED").data

/-- The literal `"## DISMISSED"`. -/
def headingDismissed : List Char := ("## DISMISSED").data

/-- The literal `"## CONTESTED"`. -/
def headingContested : List Char := ("## CONTESTED").data

/-- `validate_verdict` (validation.py lines 55-69). -/
def validateVerdictL (verdictText critiqueText : List Char) : Except VError Unit :=
  let expected := extractIdsL critiqueText
  if expected = [] then .error .noCritiqueIds
  else if !(containsSubL headingConfirmed verdictText &&
            containsSubL headingDismissed verdictText &&
            containsSubL headingContested verdictText) then
    .error .missingSections
  else
    let mentioned := extractIdsL verdictText
    if mentioned = [] then .error .noVerdictIds
    else if expected.any (fun id => !mentioned.contains id) then
      .error .missingVerdictIds
    else .ok ()

/-- `validate_verdict` on strings. -/
def validate_verdict (verdictText critiqueText : String) : Except VError Unit :=
  validateVerdictL verdictText.data critiqueText.data

/-! ### report.py

The two header regexes in report.py carry the same over-escaping slip as
`_FINDING_ID_RE`: inside the raw strings, `\\(` is a literal backslash
followed by a `(` that opens an (unnamed) group, and `\\)` is a literal
backslash followed by the `)` closing that group, while the trailing
`\\s*$` is a literal backslash followed by zero or more letters `s`.
A critique header line can therefore only match when it contains literal
backslashes around the severity part; no line of the well-formed format
documented in the spec ever matches.  The matchers below implement those
(mangled) patterns; in this development they are only ever run on empty
artifact texts. -/

/-- `CritiqueFinding` (report.py lines 12-18). -/
structure CritiqueFinding where
  findingId : List Char
  title : List Char
  severity : List Char
  confidence : List Char
  location : List Char
  deriving DecidableEq, Repr

/-- The verdict buckets (report.py `VerdictItem.status`). -/
inductive VStatus where
  | confirmed
  | dismissed
  | contested
  deriving DecidableEq, Repr

/-- `VerdictItem` (report.py lines 21-26). -/
structure VerdictItem where
  findingId : List Char
  severity : Option (List Char)
  fixPriority : Option (List Char)
  status : VStatus
  deriving DecidableEq, Repr

/-- The severity alternatives `CRITICAL|HIGH|MEDIUM|LOW`.  No alternative
is a prefix of another, so alternation matching is deterministic. -/
def sevAlternatives : List (List Char) :=
  [("CRITICAL").data, ("HIGH").data, ("MEDIUM").data, ("LOW").data]

/-- The confidence alternatives `HIGH|MEDIUM|LOW`. -/
def confAlternatives : List (List Char) :=
  [("HIGH").data, ("MEDIUM").data, ("LOW").data]

/-- Match one alternative as a prefix, returning it and the rest. -/
def matchAlt (alts : List (List Char)) (l : List Char) :
    Option (List Char × List Char) :=
  match alts.find? (fun a => startsWithL a l) with
  | some a => some (a, l.drop a.length)
  | none => none

/-- The group `[A-Z0-9]+-\d{2}` anchored at the head of `l`: the id and
the rest.  `[A-Z0-9]+` is forced to the maximal run (it cannot contain
`-`, so shortening it can never help a later token). -/
def matchIdCore (l : List Char) : Option (List Char × List Char) :=
  let run := l.takeWhile isIdChar
  if run = [] then none
  else
    match l.dropWhile isIdChar with
    | '-' :: d1 :: d2 :: r2 =>
      if d1.isDigit && d2.isDigit then some (run ++ ['-', d1, d2], r2) else none
    | _ => none

/-- The tail of `_CRITIQUE_HEADER_RE` after the title: `\s+` then literal
`\`, severity, `,`, `\s+`, `CONFIDENCE:`, `\s+`, confidence, then the two
literal backslashes, then `s*`, then end of line. -/
def critiqueHeaderTail (l : List Char) : Option (List Char × List Char) :=
  if l.takeWhile pyIsSpace = [] then none
  else
    match l.dropWhile pyIsSpace with
    | '\\' :: r1 =>
      match matchAlt sevAlternatives r1 with
      | none => none
      | some (sev, r2) =>
        match r2 with
        | ',' :: r3 =>
          if r3.takeWhile pyIsSpace = [] then none
          else
            let r4 := r3.dropWhile pyIsSpace
            if startsWithL (("CONFIDENCE:").data) r4 then
              let r5 := r4.drop 11
              if r5.takeWhile pyIsSpace = [] then none
              else
                match matchAlt confAlternatives (r5.dropWhile pyIsSpace) with
                | none => none
                | some (conf, r6) =>
                  match r6 with
                  | '\\' :: '\\' :: r7 =>
                    if r7.all (fun c => c = 's') then some (sev, conf) else none
                  | _ => none
            else none
        | _ => none
    | _ => none

/-- `_CRITIQUE_HEADER_RE.match` on a stripped line (report.py lines
29-31): `^###\s+id:\s+title` then `critiqueHeaderTail`.  The greedy `.+`
title is resolved by trying the longest title first (the regex engine's
first preference); the two `\s+` runs around it are taken maximal, which
agrees with the engine on every input whose title does not start with
whitespace (no other input is ever evaluated here). -/
def matchCritiqueHeader (l : List Char) :
    Option (List Char × List Char × List Char × List Char) :=
  match l with
  | '#' :: '#' :: '#' :: rest =>
    if rest.takeWhile pyIsSpace = [] then none
    else
      match matchIdCore (rest.dropWhile pyIsSpace) with
      | none => none
      | some (id, r1) =>
        match r1 with
        | ':' :: r2 =>
          if r2.takeWhile pyIsSpace = [] then none
          else
            let body := r2.dropWhile pyIsSpace
            let cands := ((List.range body.length).reverse).filterMap
              (fun k =>
                if k = 0 then none
                else
                  match critiqueHeaderTail (body.drop k) with
                  | some pr => some (body.take k, pr)
                  | none => none)
            match cands with
            | [] => none
            | (title, sev, conf) :: _ => some (id, title, sev, conf)
        | _ => none
  | _ => none

/-- One step of the `parse_critique` loop state: the finding being
accumulated (id, title, severity, confidence, optional location). -/
structure CritiqueAcc where
  id : List Char
  title : List Char
  severity : List Char
  confidence : List Char
  location : Option (List Char)
  deriving Repr

/-- Insert-or-replace into the findings association list (Python dict
assignment `findings[id] = ...`; only lookups are performed later, so the
entry position is irrelevant). -/
def upsertFinding (m : List (List Char × CritiqueFinding)) (k : List Char)
    (v : CritiqueFinding) : List (List Char × CritiqueFinding) :=
  match m with
  | [] => [(k, v)]
  | (k0, v0) :: rest =>
    if k0 = k then (k, v) :: rest else (k0, v0) :: upsertFinding rest k v

/-- Flush the accumulated finding (report.py lines 42-49 and 60-67). -/
def flushCritique (m : List (List Char × CritiqueFinding)) :
    Option CritiqueAcc → List (List Char × CritiqueFinding)
  | none => m
  | some a =>
    upsertFinding m a.id
      ⟨a.id, a.title, a.severity, a.confidence, a.location.getD []⟩

/-- The loop of `parse_critique` (report.py lines 34-68). -/
def parseCritiqueGo (m : List (List Char × CritiqueFinding))
    (cur : Option CritiqueAcc) :
    List (List Char) → List (List Char × CritiqueFinding)
  | [] => flushCritique m cur
  | raw :: rest =>
    match matchCritiqueHeader (pyStripL raw) with
    | some (id, title, sev, conf) =>
      parseCritiqueGo (flushCritique m cur)
        (some ⟨id, pyStripL title, pyStripL sev, pyStripL conf, none⟩) rest
    | none =>
      match cur with
      | some a =>
        if startsWithL (("- Location:").data) (pyStripL raw) then
          match splitFirst [':'] raw with
          | some pr =>
            parseCritiqueGo m (some { a with location := some (pyStripL pr.2) }) rest
          | none => parseCritiqueGo m cur rest
        else parseCritiqueGo m cur rest
      | none => parseCritiqueGo m cur rest

/-- `parse_critique` (report.py lines 34-68). -/
def parseCritiqueL (text : List Char) : List (List Char × CritiqueFinding) :=
  parseCritiqueGo [] none (splitLinesL text)

/-- The `^(id)\s+\\((sev)\\)\\s*$` match for CONFIRMED verdict headers
(report.py line 108), with the same over-escaping as above: id, `\s+`,
literal `\`, severity, then two literal backslashes, `s*`, end. -/
def matchVerdictConfirmedHeader (l : List Char) :
    Option (List Char × List Char) :=
  match matchIdCore l with
  | none => none
  | some (id, r1) =>
    if r1.takeWhile pyIsSpace = [] then none
    else
      match r1.dropWhile pyIsSpace with
      | '\\' :: r2 =>
        match matchAlt sevAlternatives r2 with
        | none => none
        | some (sev, r3) =>
          match r3 with
          | '\\' :: '\\' :: r4 =>
            if r4.all (fun c => c = 's') then some (id, sev) else none
          | _ => none
      | _ => none

/-- The `parse_verdict` loop state. -/
structure VerdictAcc where
  status : Option VStatus
  currentId : Option (List Char)
  currentSev : Option (List Char)
  currentPriority : Option (List Char)

/-- Flush the in-progress verdict item (report.py lines 91-99, 121-122). -/
def flushVerdict (items : List VerdictItem) (st : VerdictAcc) : List VerdictItem :=
  match st.currentId, st.status with
  | some id, some status =>
    items ++ [⟨id, st.currentSev, st.currentPriority, status⟩]
  | _, _ => items

/-- The loop of `parse_verdict` (report.py lines 71-123).  The `none`
result models the `IndexError` from `header.split()[0]` — unreachable in
fact, since a stripped line starting with `"### "` always has a non-blank
remainder. -/
def parseVerdictGo (items : List VerdictItem) (st : VerdictAcc) :
    List (List Char) → Option (List VerdictItem)
  | [] => some (flushVerdict items st)
  | raw :: rest =>
    let line := pyStripL raw
    if line = ("## CONFIRMED").data then
      parseVerdictGo items { st with status := some .confirmed } rest
    else if line = ("## DISMISSED").data then
      parseVerdictGo items { st with status := some .dismissed } rest
    else if line = ("## CONTESTED").data then
      parseVerdictGo items { st with status := some .contested } rest
    else if startsWithL (("### ").data) line ∧ st.status.isSome then
      let items' := flushVerdict items st
      let header := pyStripL (line.drop 4)
      let st0 : VerdictAcc := ⟨st.status, none, none, none⟩
      if st.status = some .confirmed then
        match matchVerdictConfirmedHeader header with
        | some (id, sev) =>
          parseVerdictGo items'
            { st0 with currentId := some id, currentSev := some sev } rest
        | none =>
          match pySplitWsHead header with
          | some tok => parseVerdictGo items' { st0 with currentId := some tok } rest
          | none => none
      else
        match pySplitWsHead header with
        | some tok => parseVerdictGo items' { st0 with currentId := some tok } rest
        | none => none
    else if st.currentId.isSome ∧ st.status = some .confirmed ∧
        startsWithL (("- Fix priority:").data) line then
      match splitFirst [':'] line with
      | some pr =>
        parseVerdictGo items { st with currentPriority := some (pyStripL pr.2) } rest
      | none => parseVerdictGo items st rest
    else parseVerdictGo items st rest

/-- `parse_verdict` (report.py lines 71-123). -/
def parseVerdictL (text : List Char) : Option (List VerdictItem) :=
  parseVerdictGo [] ⟨none, none, none, none⟩ (splitLinesL text)

/-- Python `"\n".join(lines)`. -/
def joinNLL : List (List Char) → List Char
  | [] => []
  | [x] => x
  | x :: y :: rest => x ++ '\n' :: joinNLL (y :: rest)

/-- `critique_map.get(id, CritiqueFinding(id, "", "", "", ""))`
(report.py lines 143-147). -/
def lookupFinding (m : List (List Char × CritiqueFinding)) (id : List Char) :
    CritiqueFinding :=
  match m.find? (fun pr => pr.1 = id) with
  | some pr => pr.2
  | none => ⟨id, [], [], [], []⟩

/-- `_priority_rank` (report.py lines 150-158): the sort key
`(rank, finding_id)` with rank 0/1/2 for fix priority P0/P1/P2 (upper
cased) and 3 otherwise. -/
def priorityRank (v : VerdictItem) : Int × List Char :=
  let p := (v.fixPriority.getD []).map Char.toUpper
  let r : Int :=
    if p = ("P0").data then 0
    else if p = ("P1").data then 1
    else if p = ("P2").data then 2
    else 3
  (r, v.findingId)

/-- Python string `<` (code-point lexicographic). -/
def lexLtCh : List Char → List Char → Bool
  | [], [] => false
  | [], _ :: _ => true
  | _ :: _, [] => false
  | a :: as, b :: bs => if a = b then lexLtCh as bs else decide (a < b)

/-- The order `sorted(confirmed, key=_priority_rank)` sorts by, made into
a linear order on index-tagged items so that the unique sorted result
coincides with Python's stable sort: compare the key tuples
lexicographically, breaking exact key ties by original position. -/
def verdictSortRel (a b : Nat × VerdictItem) : Prop :=
  let ka := priorityRank a.2
  let kb := priorityRank b.2
  ka.1 < kb.1 ∨ (ka.1 = kb.1 ∧
    (lexLtCh ka.2 kb.2 = true ∨ (ka.2 = kb.2 ∧ a.1 ≤ b.1)))

instance : DecidableRel verdictSortRel := fun _ _ =>
  inferInstanceAs (Decidable (_ ∨ _))

/-- `sorted(l, key=_priority_rank)` (report.py lines 160, 204). -/
def sortByPriorityRank (l : List VerdictItem) : List VerdictItem :=
  ((l.enum).insertionSort verdictSortRel).map (fun pr => pr.2)

/-- `f"- {v.finding_id} ({sev}, {prio}): {title} — {loc}".rstrip()`
(report.py lines 181, 197, 209). -/
def confirmedItemLine (m : List (List Char × CritiqueFinding)) (v : VerdictItem) :
    List Char :=
  rstripL (("- ").data ++ v.findingId ++ (" (").data ++ v.severity.getD [] ++
    (", ").data ++ v.fixPriority.getD [] ++ ("): ").data ++
    (lookupFinding m v.findingId).title ++ (" — ").data ++
    (lookupFinding m v.findingId).location)

/-- `f"- {v.finding_id}: {title}".rstrip()` (report.py lines 217, 225). -/
def plainItemLine (m : List (List Char × CritiqueFinding)) (v : VerdictItem) :
    List Char :=
  rstripL (("- ").data ++ v.findingId ++ (": ").data ++
    (lookupFinding m v.findingId).title)

/-- The fixed opening of the report (report.py lines 164-174). -/
def reportHeadLines (date repoLabel headSha reviewType scope : List Char) :
    List (List Char) :=
  [("# Review Report: ").data ++ reviewType ++ (" — ").data ++ repoLabel ++
     (" @ ").data ++ headSha,
   [],
   ("- Date: ").data ++ date,
   ("- Scope: ").data ++ scope,
   ("- Artifacts:").data,
   ("  - 1-critique.txt").data,
   ("  - 2-defense.txt").data,
   ("  - 3-rebuttal.txt").data,
   ("  - 4-verdict.txt").data,
   [],
   ("## Executive summary").data]

/-- The executive-summary items (report.py lines 175-183). -/
def execSummaryLines (m : List (List Char × CritiqueFinding))
    (topConfirmed : List VerdictItem) : List (List Char) :=
  if topConfirmed ≠ [] then topConfirmed.map (confirmedItemLine m)
  else [("- No CONFIRMED findings.").data]

/-- The counts block (report.py lines 184-189). -/
def countsLines (nConfirmed nDismissed nContested : Nat) : List (List Char) :=
  [[],
   ("## Counts").data,
   ("- CONFIRMED: ").data ++ (toString nConfirmed).data,
   ("- DISMISSED: ").data ++ (toString nDismissed).data,
   ("- CONTESTED: ").data ++ (toString nContested).data,
   [],
   ("## Top findings (P0/P1)").data]

/-- The top-findings items (report.py lines 190-199). -/
def topFindingsLines (m : List (List Char × CritiqueFinding))
    (topConfirmed : List VerdictItem) : List (List Char) :=
  if topConfirmed ≠ [] then topConfirmed.map (confirmedItemLine m)
  else [("- None.").data]

/-- The full-verdict CONFIRMED block (report.py lines 200-211). -/
def confirmedBlockLines (m : List (List Char × CritiqueFinding))
    (confirmed : List VerdictItem) : List (List Char) :=
  [[], ("## Full verdict").data, ("### CONFIRMED").data] ++
  (if confirmed ≠ [] then (sortByPriorityRank confirmed).map (confirmedItemLine m)
   else [("- None.").data])

/-- The full-verdict DISMISSED block (report.py lines 212-219). -/
def dismissedBlockLines (m : List (List Char × CritiqueFinding))
    (dismissed : List VerdictItem) : List (List Char) :=
  [[], ("### DISMISSED").data] ++
  (if dismissed ≠ [] then dismissed.map (plainItemLine m)
   else [("- None.").data])

/-- The full-verdict CONTESTED block (report.py lines 220-228). -/
def contestedBlockLines (m : List (List Char × CritiqueFinding))
    (contested : List VerdictItem) : List (List Char) :=
  [[], ("### CONTESTED").data] ++
  (if contested ≠ [] then contested.map (plainItemLine m)
   else [("- None.").data]) ++
  [[]]

/-- The full `lines` list of `write_report` (report.py lines 163-228). -/
def reportLines (date repoLabel headSha reviewType scope : List Char)
    (m : List (List Char × CritiqueFinding)) (verdictItems : List VerdictItem) :
    List (List Char) :=
  let confirmed := verdictItems.filter (fun v => v.status = .confirmed)
  let dismissed := verdictItems.filter (fun v => v.status = .dismissed)
  let contested := verdictItems.filter (fun v => v.status = .contested)
  let topConfirmed := (sortByPriorityRank confirmed).take 5
  reportHeadLines date repoLabel headSha reviewType scope ++
  execSummaryLines m topConfirmed ++
  countsLines confirmed.length dismissed.length contested.length ++
  topFindingsLines m topConfirmed ++
  confirmedBlockLines m confirmed ++
  dismissedBlockLines m dismissed ++
  contestedBlockLines m contested

/-- `write_report` (report.py lines 126-231), producing the report text.
`date` stands for `datetime.date.today().isoformat()` (an ambient input).
The result is `none` exactly when `parse_verdict` would raise (its
unreachable `IndexError`); otherwise it is
`"\n".join(lines).rstrip() + "\n"`. -/
def writeReportL (date repoLabel headSha reviewType scope critique verdict :
    List Char) : Option (List Char) :=
  match parseVerdictL verdict with
  | none => none
  | some verdictItems =>
    let m := parseCritiqueL critique
    some (rstripL (joinNLL
      (reportLines date repoLabel headSha reviewType scope m verdictItems)) ++ ['\n'])

/-! ### runner.py -/

/-- `_truncate` (runner.py lines 129-132). -/
def pyTruncateL (text : List Char) (maxChars : Int) : List Char :=
  if (text.length : Int) ≤ maxChars then text
  else pySliceTo text (maxChars - 200) ++ ("\n\n[... diff truncated ...]\n").data

/-- What the empty-diff short-circuit of `run_review` leaves behind: the
contents written to the four artifact files and the report file, plus the
number of calls made to the external model boundary on the way. -/
structure ShortCircuitResult where
  critique : List Char
  defense : List Char
  rebuttal : List Char
  verdict : List Char
  report : List Char
  modelCalls : Nat
  deriving Repr

/-- The empty-diff branch of `run_review` (runner.py lines 48-62): after
assembling `diff_trimmed = _truncate(diff, max_diff_chars)`, if the
trimmed diff is blank the four artifacts are written empty and the report
is produced by `write_report` with empty critique and verdict; the run
returns there, and the model client is only constructed further down
(runner.py line 87), so the branch makes zero model calls.  `none` means
the branch is not taken. -/
def runReviewEmptyDiffStep (date repoLabel headSha reviewType scope :
    List Char) (diff : List Char) (maxDiffChars : Int) :
    Option ShortCircuitResult :=
  if pyStripL (pyTruncateL diff maxDiffChars) = [] then
    (writeReportL date repoLabel headSha reviewType scope [] []).map
      (fun rep => ⟨[], [], [], [], rep, 0⟩)
  else none

/-! ### Lemmas about interval merging and the emit loop -/

/-- Strict ordering of window starts. -/
def startLt (p q : Int × Int) : Prop := p.1 < q.1

instance : IsTrans (Int × Int) startLt where
  trans _ _ _ h h' := lt_trans h h'

/-- The separation invariant of merged windows: consecutive windows are at
least two lines apart. -/
def gapsep (p q : Int × Int) : Prop := p.2 + 1 < q.1

/-- Every predicate preserved by the merge step holds for all outputs of
the merge loop. -/
theorem mergeGo_forall (P : Int × Int → Prop)
    (hP : ∀ a b c d : Int, P (a, b) → P (c, d) → P (a, max b d)) :
    ∀ (l : List (Int × Int)) (cs ce : Int), P (cs, ce) → (∀ p ∈ l, P p) →
      ∀ q ∈ mergeGo cs ce l, P q := by
  intro l
  induction l with
  | nil =>
    intro cs ce hcur _ q hq
    simp only [mergeGo, List.mem_singleton] at hq
    exact hq ▸ hcur
  | cons hd tl ih =>
    intro cs ce hcur hall q hq
    obtain ⟨s, e⟩ := hd
    simp only [mergeGo] at hq
    split at hq
    · exact ih cs (max ce e) (hP _ _ _ _ hcur (hall (s, e) (by simp)))
        (fun p hp => hall p (by simp [hp])) q hq
    · rcases List.mem_cons.mp hq with h | h
      · exact h ▸ hcur
      · exact ih s e (hall (s, e) (by simp))
          (fun p hp => hall p (by simp [hp])) q h

/-- The merge loop keeps the start of the current interval, only grows its
end, and produces windows separated by gaps of at least two lines. -/
theorem mergeGo_chain :
    ∀ (l : List (Int × Int)) (cs ce : Int), List.Pairwise pairLe l →
      (∀ p ∈ l, cs ≤ p.1) →
      ∃ ce2 t, mergeGo cs ce l = (cs, ce2) :: t ∧ ce ≤ ce2 ∧
        List.Chain' gapsep ((cs, ce2) :: t) := by
  intro l
  induction l with
  | nil =>
    intro cs ce _ _
    exact ⟨ce, [], rfl, le_refl ce, List.chain'_singleton _⟩
  | cons hd tl ih =>
    intro cs ce hpw hcs
    obtain ⟨s, e⟩ := hd
    by_cases hm : s ≤ ce + 1
    · obtain ⟨ce2, t, heq, hle, hch⟩ := ih cs (max ce e) hpw.of_cons
        (fun p hp => hcs p (by simp [hp]))
      refine ⟨ce2, t, ?_, le_trans (le_max_left ce e) hle, hch⟩
      simpa only [mergeGo, if_pos hm] using heq
    · have hstl : ∀ p ∈ tl, s ≤ p.1 := by
        intro p hp
        rcases (List.pairwise_cons.mp hpw).1 p hp with h | ⟨h, _⟩
        · exact le_of_lt h
        · exact le_of_eq h
      obtain ⟨ce2, t, heq, _, hch⟩ := ih s e hpw.of_cons hstl
      refine ⟨ce, (s, ce2) :: t, ?_, le_refl ce, ?_⟩
      · simp only [mergeGo, if_neg hm, heq]
      · exact List.chain'_cons.mpr ⟨by simpa [gapsep] using not_le.mp hm, hch⟩

/-- On input already separated by gaps of at least two lines the merge
loop is the identity. -/
theorem mergeGo_of_gapped :
    ∀ (l : List (Int × Int)) (cs ce : Int),
      List.Chain' gapsep ((cs, ce) :: l) → mergeGo cs ce l = (cs, ce) :: l := by
  intro l
  induction l with
  | nil => intro cs ce _; rfl
  | cons hd tl ih =>
    intro cs ce hch
    obtain ⟨s, e⟩ := hd
    have h1 : gapsep (cs, ce) (s, e) := (List.chain'_cons.mp hch).1
    have hm : ¬ s ≤ ce + 1 := by simpa [gapsep] using Int.lt_iff_add_one_le.mp h1
    simp only [mergeGo, if_neg hm, ih s e (List.chain'_cons.mp hch).2]

/-- Every predicate preserved by the merge step and satisfied by the valid
(`start ≤ end`) inputs holds for all merged intervals. -/
theorem mergeIntervals_forall (P : Int × Int → Prop)
    (hP : ∀ a b c d : Int, P (a, b) → P (c, d) → P (a, max b d))
    (xs : List (Int × Int)) (hIn : ∀ p ∈ xs, p.1 ≤ p.2 → P p) :
    ∀ q ∈ mergeIntervals xs, P q := by
  intro q hq
  unfold mergeIntervals at hq
  have hmem : ∀ p ∈ List.insertionSort pairLe
      (xs.filter (fun p => decide (p.1 ≤ p.2))), P p := by
    intro p hp
    rw [List.mem_insertionSort, List.mem_filter] at hp
    exact hIn p hp.1 (by simpa using hp.2)
  cases hm : List.insertionSort pairLe (xs.filter (fun p => decide (p.1 ≤ p.2))) with
  | nil => rw [hm] at hq; simp at hq
  | cons hd rest =>
    obtain ⟨s, e⟩ := hd
    rw [hm] at hq hmem
    exact mergeGo_forall P hP rest s e (hmem _ (List.mem_cons_self _ _))
      (fun p hp => hmem p (List.mem_cons_of_mem _ hp)) q hq

/-- The merged intervals are separated by gaps of at least two lines. -/
theorem mergeIntervals_gapChain (xs : List (Int × Int)) :
    List.Chain' gapsep (mergeIntervals xs) := by
  unfold mergeIntervals
  have hsorted : List.Pairwise pairLe (List.insertionSort pairLe
      (xs.filter (fun p => decide (p.1 ≤ p.2)))) :=
    List.sorted_insertionSort pairLe _
  cases hm : List.insertionSort pairLe (xs.filter (fun p => decide (p.1 ≤ p.2))) with
  | nil => exact List.chain'_nil
  | cons hd rest =>
    obtain ⟨s, e⟩ := hd
    rw [hm] at hsorted
    have hb : ∀ p ∈ rest, s ≤ p.1 := by
      intro p hp
      rcases (List.pairwise_cons.mp hsorted).1 p hp with h | ⟨h, _⟩
      · exact le_of_lt h
      · exact le_of_eq h
    obtain ⟨ce2, t, heq, _, hch⟩ := mergeGo_chain rest s e hsorted.of_cons hb
    show List.Chain' gapsep (mergeGo s e rest)
    exact heq ▸ hch

/-- Every merged interval has `start ≤ end`. -/
theorem mergeIntervals_startEnd (xs : List (Int × Int)) :
    ∀ p ∈ mergeIntervals xs, p.1 ≤ p.2 :=
  mergeIntervals_forall (fun p => p.1 ≤ p.2)
    (fun _ b _ d h1 _ => le_trans h1 (le_max_left b d)) xs (fun _ _ h => h)

/-- A gap-separated list of valid intervals is strictly ascending in its
start lines. -/
theorem chainLt_of_gap : ∀ ys : List (Int × Int), List.Chain' gapsep ys →
    (∀ p ∈ ys, p.1 ≤ p.2) → List.Chain' startLt ys := by
  intro ys
  induction ys with
  | nil => intro _ _; exact List.chain'_nil
  | cons hd tl ih =>
    intro hgap hse
    cases tl with
    | nil => exact List.chain'_singleton _
    | cons q t =>
      refine List.chain'_cons.mpr ⟨?_, ?_⟩
      · have h1 := (List.chain'_cons.mp hgap).1
        have h2 := hse hd (List.mem_cons_self _ _)
        simp only [gapsep] at h1
        exact lt_of_le_of_lt h2 (by omega)
      · exact ih (List.chain'_cons.mp hgap).2
          (fun p hp => hse p (List.mem_cons_of_mem _ hp))

/-- Merged intervals are strictly ascending in their start lines. -/
theorem mergeIntervals_startChain (xs : List (Int × Int)) :
    List.Chain' startLt (mergeIntervals xs) :=
  chainLt_of_gap _ (mergeIntervals_gapChain xs) (mergeIntervals_startEnd xs)

/-- Merging an already-merged list changes nothing. -/
theorem mergeIntervals_idem (xs : List (Int × Int)) :
    mergeIntervals (mergeIntervals xs) = mergeIntervals xs := by
  have hgap := mergeIntervals_gapChain xs
  have hse := mergeIntervals_startEnd xs
  have hstart := mergeIntervals_startChain xs
  set ys := mergeIntervals xs with hys
  clear_value ys
  have hfilter : ys.filter (fun p => decide (p.1 ≤ p.2)) = ys :=
    List.filter_eq_self.mpr (fun p hp => by simpa using hse p hp)
  have hpw : List.Pairwise pairLe ys := by
    have := (List.chain'_iff_pairwise (R := startLt)).mp hstart
    exact this.imp (fun h => Or.inl h)
  have hsort : List.insertionSort pairLe ys = ys :=
    List.Sorted.insertionSort_eq hpw
  unfold mergeIntervals
  rw [hfilter, hsort]
  match ys, hgap with
  | [], _ => rfl
  | (s, e) :: rest, hgap => exact mergeGo_of_gapped rest s e hgap

/-! ### Lemmas about slicing and the emission loop -/

theorem pySlice_length_of {α : Type} (l : List α) (a b : Int) (h0 : 0 ≤ a)
    (hab : a ≤ b) (hbn : b ≤ (l.length : Int)) :
    ((pySlice l a b).length : Int) = b - a := by
  unfold pySlice
  have hna : ¬ a < 0 := not_lt.mpr h0
  have hnb : ¬ b < 0 := not_lt.mpr (le_trans h0 hab)
  simp only [if_neg hna, if_neg hnb, List.length_take, List.length_drop]
  have h1 : min a (l.length : Int) = a := min_eq_left (le_trans hab hbn)
  have h2 : min b (l.length : Int) = b := min_eq_left hbn
  rw [h1, h2]
  omega

theorem pySliceTo_length {α : Type} (l : List α) (k : Int) (hk : 0 ≤ k) :
    ((pySliceTo l k).length : Int) = min (l.length : Int) k := by
  unfold pySliceTo pySlice
  have hnk : ¬ k < 0 := not_lt.mpr hk
  simp only [if_neg hnk, List.length_take, List.length_drop]
  have : ¬ (0 : Int) < 0 := by omega
  simp only [if_neg this]
  have h1 : min (0 : Int) (l.length : Int) = 0 := min_eq_left (by positivity)
  rw [h1]
  omega

/-- Total size of a window list. -/
def windowSum (ws : List (Int × Int)) : Int :=
  (ws.map (fun w => w.2 - w.1 + 1)).sum

theorem windowSum_nonneg (ws : List (Int × Int))
    (h : ∀ w ∈ ws, w.1 ≤ w.2) : 0 ≤ windowSum ws := by
  induction ws with
  | nil => simp [windowSum]
  | cons hd tl ih =>
    have h1 := h hd (List.mem_cons_self _ _)
    have h2 := ih (fun w hw => h w (List.mem_cons_of_mem _ hw))
    simp only [windowSum, List.map_cons, List.sum_cons] at *
    omega

/-- What the emission loop emits: exactly `min (total + windowSum) cap -
total` numbered lines, for windows clamped inside the file. -/
theorem emitChunks_sum (lines : List String) (cap : Int) :
    ∀ (ws : List (Int × Int)) (total : Int), 0 ≤ total → total ≤ cap →
      (∀ w ∈ ws, 1 ≤ w.1 ∧ w.1 ≤ w.2 ∧ w.2 ≤ (lines.length : Int)) →
      (((emitChunks lines cap total ws).map (fun pr => pr.2.length)).sum : Int) =
        min (total + windowSum ws) cap - total := by
  intro ws
  induction ws with
  | nil =>
    intro total h0 hc _
    simp only [emitChunks, List.map_nil, List.sum_nil, windowSum, Int.add_zero]
    omega
  | cons hd tl ih =>
    intro total h0 hc hall
    obtain ⟨s, e⟩ := hd
    obtain ⟨hw1, hw2, hw3⟩ := hall (s, e) (List.mem_cons_self _ _)
    have htl : ∀ w ∈ tl, 1 ≤ w.1 ∧ w.1 ≤ w.2 ∧ w.2 ≤ (lines.length : Int) :=
      fun w hw => hall w (List.mem_cons_of_mem _ hw)
    have hsum0 : 0 ≤ windowSum tl :=
      windowSum_nonneg tl (fun w hw => (htl w hw).2.1)
    simp only [emitChunks]
    split
    · rename_i hstop
      have : total = cap := le_antisymm hc hstop
      simp only [List.map_nil, List.sum_nil]
      simp only [windowSum, List.map_cons, List.sum_cons]
      simp only [windowSum] at hsum0
      subst this
      have : 1 ≤ e - s + 1 := by omega
      omega
    · rename_i hgo
      have htot : total < cap := lt_of_not_le (fun h => hgo (le_antisymm hc h ▸ le_refl _))
      have hlen0 : ((pySlice lines (s - 1) e).length : Int) = e - (s - 1) :=
        pySlice_length_of lines (s - 1) e (by omega) (by omega) hw3
      have hlen : ((pySliceTo (pySlice lines (s - 1) e) (cap - total)).length : Int) =
          min (e - (s - 1)) (cap - total) := by
        rw [pySliceTo_length _ _ (by omega), hlen0]
      set chunk := pySliceTo (pySlice lines (s - 1) e) (cap - total) with hchunk
      simp only [List.map_cons, List.sum_cons]
      have h0' : (0 : Int) ≤ total + chunk.length := by
        have : (0 : Int) ≤ (chunk.length : Int) := Int.natCast_nonneg _
        omega
      have hc' : total + (chunk.length : Int) ≤ cap := by
        rw [hlen]; omega
      have := ih (total + chunk.length) h0' hc' htl
      push_cast at this ⊢
      rw [this]
      simp only [windowSum, List.map_cons, List.sum_cons]
      rw [hlen] at *
      simp only [windowSum] at hsum0
      omega

/-- The windows of one file are clamped inside the file with
`1 ≤ start ≤ end ≤ file length`. -/
theorem fileWindows_bounds (lines : List String) (hunks : List Hunk)
    (c : Int) :
    ∀ w ∈ fileWindows lines hunks c,
      1 ≤ w.1 ∧ w.1 ≤ w.2 ∧ w.2 ≤ (lines.length : Int) := by
  refine mergeIntervals_forall _ ?_ _ ?_
  · intro a b cc d ⟨h1, h2, h3⟩ ⟨_, _, h6⟩
    exact ⟨h1, le_trans h2 (le_max_left b d), max_le h3 h6⟩
  · intro p hp hse
    obtain ⟨h, _, rfl⟩ := List.mem_map.mp hp
    refine ⟨le_max_left _ _, hse, min_le_left _ _⟩

/-! ### Support for C7: a diff with no path-capturing line yields no
FileChange -/

/-- The path captured by one line of `parse_unified_diff` (git_context.py
lines 96-101): `some p` exactly when the line starts with `"+++ "` and its
second whitespace token starts with `b/` (then `current_path` is set to
the token minus that prefix); `none` when the line leaves `current_path`
unchanged. -/
def pathCapture (raw : List Char) : Option (List Char) :=
  if startsWithL plusPlusPre raw then
    match pySplitWsMax1 raw with
    | [_, second] =>
      if startsWithL bSlashPre second then some (second.drop 2) else none
    | _ => none
  else none

theorem parseGo_none_of_noPath :
    ∀ ls : List (List Char), (∀ l ∈ ls, pathCapture l = none) →
      ∀ hs acc, parseGo none hs acc ls = acc := by
  intro ls
  induction ls with
  | nil => intro _ hs acc; simp [parseGo, flushFC]
  | cons raw rest ih =>
    intro h hs acc
    have hrest : ∀ l ∈ rest, pathCapture l = none :=
      fun l hl => h l (List.mem_cons_of_mem _ hl)
    have hraw : pathCapture raw = none := h raw (List.mem_cons_self _ _)
    simp only [parseGo]
    split
    · rw [show acc ++ flushFC none hs = acc by simp [flushFC]]
      exact ih hrest [] acc
    · split
      · unfold pathCapture at hraw
        rename_i hppp
        rw [if_pos (by assumption)] at hraw
        cases hsp : pySplitWsMax1 raw with
        | nil => rw [hsp] at hraw; exact ih hrest hs acc
        | cons t1 tl1 =>
          cases tl1 with
          | nil => exact ih hrest hs acc
          | cons second tl2 =>
            cases tl2 with
            | nil =>
              rw [hsp] at hraw
              have hraw' : (if startsWithL bSlashPre second = true then
                  some (second.drop 2) else none) = none := hraw
              show (if startsWithL bSlashPre second = true then
                  parseGo (some (second.drop 2)) hs acc rest
                else parseGo none hs acc rest) = acc
              by_cases hb : startsWithL bSlashPre second = true
              · rw [if_pos hb] at hraw'; exact absurd hraw' (by simp)
              · rw [if_neg hb]
                exact ih hrest hs acc
            | cons _ _ => exact ih hrest hs acc
      · split
        · exact ih hrest _ acc
        · exact ih hrest hs acc

/-! ### Support for C10 and C6: the validators -/

theorem statusOfLine_none (raw : List Char)
    (h : ¬(startsWithL (("### ").data) (pyStripL raw) = true ∧
           containsSubL [('—' : Char)] (pyStripL raw) = true)) :
    statusOfLine raw = none := by
  unfold statusOfLine
  by_cases h1 : startsWithL (("### ").data) (pyStripL raw) = true
  · have h2 : ¬ containsSubL [('—' : Char)] (pyStripL raw) = true :=
      fun h2 => h ⟨h1, h2⟩
    simp [h1, h2]
  · simp [h1]

theorem collectBad_nil (allowed : List (List Char)) :
    ∀ ls : List (List Char), (∀ l ∈ ls, statusOfLine l = none) →
      collectBad allowed ls = .ok [] := by
  intro ls
  induction ls with
  | nil => intro _; rfl
  | cons raw rest ih =>
    intro h
    simp only [collectBad, h raw (List.mem_cons_self _ _)]
    exact ih (fun l hl => h l (List.mem_cons_of_mem _ hl))

/-! ### The claims -/

/-- C1 (code bug): the spec says `validate_critique` accepts a document
with well-formed finding headers `### <PREFIX>-<2 digits>: <title>
(<SEVERITY>, CONFIDENCE: <LEVEL>)` carrying the Location/Evidence/Fix
fields, and the source's own error message says it expects `### <ID>: ...`
headers — but `_FINDING_ID_RE` is written `r"^###\s+([A-Z0-9]+-\d{2})\\b"`,
where `\\b` in a raw string is a literal backslash plus `b`, not a word
boundary.  No well-formed header is ever matched, so this maximally
well-formed critique is rejected with "No findings found". -/
theorem c1_wellformed_critique_rejected :
    validate_critique
      ("### SEC-01: Title (HIGH, CONFIDENCE: HIGH)\n- Location: x\n- Evidence: y\n- Fix: z\n")
      12 = Except.error VError.noFindings := rfl

/-- C2: for every file content, hunk list, context margin and positive
per-file cap, the number of numbered source lines emitted for the file
never exceeds the cap, and whenever the merged windows hold at least
`cap` lines the emission stops exactly at the cap (the crossing window is
truncated rather than omitted). -/
theorem c2_excerpt_cap (lines : List String) (hunks : List Hunk)
    (contextLines cap : Int) (hcap : 0 < cap) :
    ((emittedLineCount lines hunks contextLines cap : Int) ≤ cap ∧
     (cap ≤ windowSum (fileWindows lines hunks contextLines) →
       (emittedLineCount lines hunks contextLines cap : Int) = cap)) := by
  have hbounds := fileWindows_bounds lines hunks contextLines
  have hsum := emitChunks_sum lines cap (fileWindows lines hunks contextLines) 0
    (le_refl 0) (le_of_lt hcap) hbounds
  have hws : 0 ≤ windowSum (fileWindows lines hunks contextLines) :=
    windowSum_nonneg _ (fun w hw => (hbounds w hw).2.1)
  unfold emittedLineCount fileExcerptChunks
  rw [Nat.cast_list_sum, List.map_map]
  simp only [Function.comp_def]
  constructor
  · rw [hsum]; omega
  · intro hge; rw [hsum]; omega

/-- Witness for C2 at a concrete input: a 7-line file, hunks at lines 1-3
and 6-7 with margin 1 (merged windows hold 7 lines), cap 4: exactly 4
numbered lines are emitted. -/
theorem c2_excerpt_cap_witness :
    (0 : Int) < 4 ∧
    (((emittedLineCount ["a", "b", "c", "d", "e", "f", "g"]
        [⟨1, 3⟩, ⟨6, 2⟩] 1 4 : Int) ≤ 4) ∧
     (4 ≤ windowSum (fileWindows ["a", "b", "c", "d", "e", "f", "g"]
        [⟨1, 3⟩, ⟨6, 2⟩] 1) →
       (emittedLineCount ["a", "b", "c", "d", "e", "f", "g"]
        [⟨1, 3⟩, ⟨6, 2⟩] 1 4 : Int) = 4)) :=
  ⟨by decide,
   c2_excerpt_cap ["a", "b", "c", "d", "e", "f", "g"] [⟨1, 3⟩, ⟨6, 2⟩] 1 4
     (by decide)⟩

/-- C4 (counterexample): the claimed raw-interval formula
`[max(1, new_start - m), min(L, new_start + new_count - 1 + m)]` fails for
`new_count = 0`: with `new_start = 5`, `m = 0`, `L = 10` the code computes
`(5, 5)` (it clamps `new_count - 1` at zero via `max(new_count - 1, 0)`),
while the claimed formula gives `(5, 4)`. -/
theorem c4_rawInterval_counterexample :
    rawInterval 10 0 ⟨5, 0⟩ ≠
      (max 1 ((5 : Int) - 0), min 10 ((5 : Int) + 0 - 1 + 0)) := by decide

/-- C4 (amended): for hunks with `new_count ≥ 1` the raw interval equals
the claimed `[max(1, new_start - m), min(L, new_start + new_count - 1 +
m)]`; for `new_count = 0` the code instead uses `new_start + m` as the
upper bound (it clamps `new_count - 1` at zero). -/
theorem c4_rawInterval_formula (L m : Int) (h : Hunk)
    (hc : 1 ≤ h.newCount) :
    rawInterval L m h =
      (max 1 (h.newStart - m), min L (h.newStart + h.newCount - 1 + m)) := by
  unfold rawInterval
  have h1 : max (h.newCount - 1) 0 = h.newCount - 1 := by omega
  rw [h1]
  ring_nf

/-- Witness for C4 (amended) at `L = 10`, `m = 2`, hunk `(5, 3)`. -/
theorem c4_rawInterval_formula_witness :
    (1 : Int) ≤ 3 ∧
    rawInterval 10 2 ⟨5, 3⟩ =
      (max 1 ((5 : Int) - 2), min 10 ((5 : Int) + 3 - 1 + 2)) :=
  ⟨by decide, c4_rawInterval_formula 10 2 ⟨5, 3⟩ (by decide)⟩

/-- C5: `_merge_intervals` is idempotent, its output is sorted strictly
ascending by start, and consecutive output windows are separated by a gap
of at least two lines (two intervals are merged exactly when
`next.start ≤ prev.end + 1`). -/
theorem c5_merge_idempotent_sorted (xs : List (Int × Int)) :
    mergeIntervals (mergeIntervals xs) = mergeIntervals xs ∧
    List.Chain' startLt (mergeIntervals xs) ∧
    List.Chain' gapsep (mergeIntervals xs) :=
  ⟨mergeIntervals_idem xs, mergeIntervals_startChain xs,
   mergeIntervals_gapChain xs⟩

/-- C7 (counterexample): the claim says a pure-deletion entry (whose `+++`
line is `/dev/null`) is retained in the parser output as a `FileChange`.
It is not: `+++ /dev/null` never sets `current_path` (only `+++ b/...`
does), so this single-file deletion diff parses to the empty sequence —
there is no `FileChange` for the file at all. -/
theorem c7_devnull_dropped :
    parse_unified_diff
      ("diff --git a/f b/f\n--- a/f\n+++ /dev/null\n@@ -1,2 +0,0 @@\n-x\n-y") =
      [] := rfl

/-- C7 (amended): a `+++ /dev/null` line never captures a path, so a diff
none of whose lines captures a path (in particular a pure-deletion diff)
produces no `FileChange` whatsoever — the file is dropped from the output
rather than retained, and a fortiori contributes no excerpt. -/
theorem c7_no_path_no_filechange (ls : List (List Char))
    (h : ∀ l ∈ ls, pathCapture l = none) :
    parseUnifiedDiffLines ls = [] :=
  parseGo_none_of_noPath ls h [] []

/-- Witness for C7 (amended) on the concrete deletion diff. -/
theorem c7_no_path_no_filechange_witness :
    (∀ l ∈ [("diff --git a/f b/f").data, ("--- a/f").data,
        ("+++ /dev/null").data, ("@@ -1,2 +0,0 @@").data,
        ("-x").data, ("-y").data], pathCapture l = none) ∧
    parseUnifiedDiffLines
      [("diff --git a/f b/f").data, ("--- a/f").data,
       ("+++ /dev/null").data, ("@@ -1,2 +0,0 @@").data,
       ("-x").data, ("-y").data] = [] :=
  ⟨by decide, c7_no_path_no_filechange _ (by decide)⟩

/-! ### Support for C9: substring facts about the assembled report -/

theorem startsWithL_append_self (pat r : List Char) :
    startsWithL pat (pat ++ r) = true := by
  induction pat with
  | nil => rfl
  | cons c cs ih => simp [startsWithL, ih]

theorem containsSub_decomp (pat pre post : List Char) :
    containsSubL pat (pre ++ pat ++ post) = true := by
  induction pre with
  | nil =>
    cases hp : pat with
    | nil => cases post with
      | nil => rfl
      | cons d ds => simp [containsSubL, startsWithL]
    | cons c cs =>
      show containsSubL (c :: cs) ((c :: cs) ++ post) = true
      cases h : (c :: cs) ++ post with
      | nil => simp at h
      | cons d ds =>
        simp only [containsSubL]
        rw [← h, startsWithL_append_self]
        simp
  | cons c cs ih =>
    show (startsWithL pat (c :: (cs ++ pat ++ post)) ||
      containsSubL pat (cs ++ pat ++ post)) = true
    rw [ih]
    simp

theorem joinNLL_append (a b : List (List Char)) (ha : a ≠ []) (hb : b ≠ []) :
    joinNLL (a ++ b) = joinNLL a ++ '\n' :: joinNLL b := by
  induction a with
  | nil => exact absurd rfl ha
  | cons x rest ih =>
    cases rest with
    | nil =>
      cases b with
      | nil => exact absurd rfl hb
      | cons b0 bs => simp [joinNLL]
    | cons r0 rs =>
      have hrec := ih (by simp)
      show x ++ '\n' :: joinNLL ((r0 :: rs) ++ b) =
        (x ++ '\n' :: joinNLL (r0 :: rs)) ++ '\n' :: joinNLL b
      rw [hrec]
      simp

theorem rstripL_append (a b : List Char) (hb : rstripL b ≠ []) :
    rstripL (a ++ b) = a ++ rstripL b := by
  unfold rstripL at *
  rw [List.reverse_append, List.dropWhile_append]
  have hne : ¬ (b.reverse.dropWhile pyIsSpace).isEmpty = true := by
    intro h
    rw [List.isEmpty_iff] at h
    rw [h] at hb
    simp at hb
  simp only [hne, if_false, Bool.false_eq_true]
  rw [List.reverse_append]
  simp

/-- C10: the status check of `_validate_status_headers` looks only at
stripped `### ` lines that contain the em-dash `—`; an entry carrying no
`— <STATUS>` marker is never status-checked.  Hence `validate_defense`
accepts any defense none of whose `### ` lines contains an em-dash, as
long as its id set equals the critique's (and the critique has ids). -/
theorem c10_defense_statusless_accepted (d c : String)
    (h1 : extractIdsL c.data ≠ [])
    (h2 : sameIdSet (extractIdsL d.data) (extractIdsL c.data) = true)
    (h3 : ∀ l ∈ splitLinesL d.data,
      ¬(startsWithL (("### ").data) (pyStripL l) = true ∧
        containsSubL [('—' : Char)] (pyStripL l) = true)) :
    validate_defense d c = Except.ok () := by
  unfold validate_defense validateDefenseL
  simp only [if_neg h1, h2, Bool.not_true, Bool.false_eq_true, if_false]
  unfold validateStatusHeaders
  rw [collectBad_nil _ _ (fun l hl => statusOfLine_none l (h3 l hl))]

/-- Witness for C10: a defense whose single entry `### A1-01\bZ` states no
status is accepted against a critique with the same id. -/
theorem c10_defense_statusless_accepted_witness :
    (extractIdsL ("### A1-01\\b: T").data ≠ [] ∧
     sameIdSet (extractIdsL ("### A1-01\\bZ").data)
       (extractIdsL ("### A1-01\\b: T").data) = true ∧
     (∀ l ∈ splitLinesL ("### A1-01\\bZ").data,
       ¬(startsWithL (("### ").data) (pyStripL l) = true ∧
         containsSubL [('—' : Char)] (pyStripL l) = true))) ∧
    validate_defense ("### A1-01\\bZ") ("### A1-01\\b: T") = Except.ok () :=
  ⟨⟨by decide, by decide, by decide⟩,
   c10_defense_statusless_accepted _ _ (by decide) (by decide) (by decide)⟩

/-- C6 (counterexample): the claim says a critique finding appearing in
more than one verdict bucket is rejected.  It is not: here `SEC-01`
appears under both `## CONFIRMED` and `## DISMISSED`, all three headings
are present, and `validate_verdict` succeeds — the validator only checks
id presence, never bucket uniqueness.  (The ids carry a literal `\b`
because the finding-id regex demands one; see C1.) -/
theorem c6_two_buckets_accepted :
    validate_verdict
      ("## CONFIRMED\n### SEC-01\\b\n## DISMISSED\n### SEC-01\\b\n## CONTESTED\n")
      ("### SEC-01\\b: T") = Except.ok () := rfl

/-- C6 (amended): `validate_verdict` succeeds exactly when the critique
has at least one finding id, all three section headings occur in the
verdict, the verdict mentions at least one finding id, and every critique
id is mentioned somewhere in the verdict.  There is no exactly-one-bucket
check: an id listed under several buckets is accepted. -/
theorem c6_verdict_success_iff (v c : String) :
    validate_verdict v c = Except.ok () ↔
      (extractIdsL c.data ≠ [] ∧
       containsSubL headingConfirmed v.data = true ∧
       containsSubL headingDismissed v.data = true ∧
       containsSubL headingContested v.data = true ∧
       extractIdsL v.data ≠ [] ∧
       ∀ id ∈ extractIdsL c.data, id ∈ extractIdsL v.data) := by
  unfold validate_verdict validateVerdictL
  by_cases h1 : extractIdsL c.data = []
  · simp [h1]
  · rw [if_neg h1]
    by_cases h2 : (containsSubL headingConfirmed v.data &&
        containsSubL headingDismissed v.data &&
        containsSubL headingContested v.data) = true
    · rw [h2]
      simp only [Bool.not_true, Bool.false_eq_true, if_false]
      simp only [Bool.and_eq_true] at h2
      by_cases h3 : extractIdsL v.data = []
      · simp [h3]
      · rw [if_neg h3]
        by_cases h4 : (extractIdsL c.data).any
            (fun id => !(extractIdsL v.data).contains id) = true
        · rw [if_pos h4]
          simp only [List.any_eq_true, Bool.not_eq_true'] at h4
          obtain ⟨id, hid, hnotin⟩ := h4
          have hnotmem : id ∉ extractIdsL v.data := by simpa using hnotin
          constructor
          · intro h; exact absurd h (by simp)
          · rintro ⟨-, -, -, -, -, hall⟩
            exact absurd (hall id hid) hnotmem
        · rw [if_neg h4]
          simp only [List.any_eq_true, not_exists, not_and,
            Bool.not_eq_true', Bool.not_eq_false] at h4
          constructor
          · intro _
            refine ⟨h1, h2.1.1, h2.1.2, h2.2, h3, fun id hid => ?_⟩
            have := h4 id hid
            simpa using this
          · intro _; rfl
    · rw [Bool.not_eq_true] at h2
      rw [h2]
      simp only [Bool.not_false, if_true]
      constructor
      · intro h; exact absurd h (by simp)
      · rintro ⟨-, hA, hB, hC, -, -⟩
        rw [hA, hB, hC] at h2
        exact absurd h2 (by decide)

/-! ### Support for C8: a symbolic trace of `_parse_hunk_header` on
well-formed headers -/

theorem digit_ne (x y : Char) (hx : x.isDigit = true) (hy : y.isDigit = false) :
    x ≠ y :=
  fun he => by rw [he] at hx; rw [hx] at hy; exact absurd hy (by simp)

theorem digit_not_space (x : Char) (hx : x.isDigit = true) :
    pyIsSpace x = false := by
  unfold Char.isDigit at hx
  unfold pyIsSpace
  simp only [Bool.and_eq_true, decide_eq_true_eq] at hx
  have h1 : x ≠ ' ' := fun he => by subst he; exact absurd hx (by decide)
  have h2 : x ≠ '\t' := fun he => by subst he; exact absurd hx (by decide)
  have h3 : x ≠ '\n' := fun he => by subst he; exact absurd hx (by decide)
  have h4 : x ≠ '\r' := fun he => by subst he; exact absurd hx (by decide)
  have h5 : x ≠ '\x0b' := fun he => by subst he; exact absurd hx (by decide)
  have h6 : x ≠ '\x0c' := fun he => by subst he; exact absurd hx (by decide)
  simp [h1, h2, h3, h4, h5, h6]

theorem splitFirst_eq (h : Char) (t : List Char) :
    ∀ (mid r : List Char), (∀ x ∈ mid, x ≠ h) →
      splitFirst (h :: t) (mid ++ (h :: t) ++ r) = some (mid, r) := by
  intro mid
  induction mid with
  | nil =>
    intro r _
    show splitFirst (h :: t) ((h :: t) ++ r) = some ([], r)
    have hsw : startsWithL (h :: t) ((h :: t) ++ r) = true :=
      startsWithL_append_self _ _
    show (if startsWithL (h :: t) (h :: (t ++ r)) = true then
        some (([] : List Char), (h :: (t ++ r)).drop (h :: t).length)
      else (splitFirst (h :: t) (t ++ r)).map
        (fun pr => (h :: pr.1, pr.2))) = some ([], r)
    rw [show (h :: (t ++ r)) = (h :: t) ++ r from rfl, hsw]
    simp only [if_true]
    rw [List.drop_left]
  | cons m ms ih =>
    intro r hmid
    have hm : m ≠ h := hmid m (List.mem_cons_self _ _)
    show splitFirst (h :: t) (m :: (ms ++ (h :: t) ++ r)) = some (m :: ms, r)
    have hsw : startsWithL (h :: t) (m :: (ms ++ (h :: t) ++ r)) = false := by
      simp only [startsWithL, Bool.and_eq_false_iff]
      left
      simp only [decide_eq_false_iff_not]
      exact fun he => hm (he.symm)
    show (if startsWithL (h :: t) (m :: (ms ++ (h :: t) ++ r)) = true then
        some (([] : List Char), (m :: (ms ++ (h :: t) ++ r)).drop (h :: t).length)
      else (splitFirst (h :: t) (ms ++ (h :: t) ++ r)).map
        (fun pr => (m :: pr.1, pr.2))) = some (m :: ms, r)
    rw [hsw]
    simp only [Bool.false_eq_true, if_false]
    rw [ih r (fun x hx => hmid x (List.mem_cons_of_mem _ hx))]
    rfl

theorem lstripL_cons_nonspace (c : Char) (x : List Char)
    (h : pyIsSpace c = false) : lstripL (c :: x) = c :: x := by
  simp [lstripL, List.dropWhile_cons, h]

theorem lstripL_cons_space (c : Char) (x : List Char)
    (h : pyIsSpace c = true) : lstripL (c :: x) = lstripL x := by
  simp [lstripL, List.dropWhile_cons, h]

theorem rstripL_append_nonspace (x : List Char) (c : Char)
    (h : pyIsSpace c = false) : rstripL (x ++ [c]) = x ++ [c] := by
  unfold rstripL
  rw [List.reverse_append]
  simp [List.dropWhile_cons, h]

theorem rstripL_append_space (x : List Char) (c : Char)
    (h : pyIsSpace c = true) : rstripL (x ++ [c]) = rstripL x := by
  unfold rstripL
  rw [List.reverse_append]
  simp [List.dropWhile_cons, h]

theorem splitCharL_append (sep : Char) :
    ∀ (p rest : List Char), (∀ x ∈ p, x ≠ sep) →
      splitCharL sep (p ++ sep :: rest) = p :: splitCharL sep rest := by
  intro p
  induction p with
  | nil =>
    intro rest _
    show splitCharL sep (sep :: rest) = [] :: splitCharL sep rest
    simp [splitCharL]
  | cons m ms ih =>
    intro rest hp
    have hm : m ≠ sep := hp m (List.mem_cons_self _ _)
    show splitCharL sep (m :: (ms ++ sep :: rest)) = (m :: ms) :: splitCharL sep rest
    simp only [splitCharL, if_neg hm]
    rw [ih rest (fun x hx => hp x (List.mem_cons_of_mem _ hx))]

theorem splitCharL_noSep (sep : Char) :
    ∀ p : List Char, (∀ x ∈ p, x ≠ sep) → splitCharL sep p = [p] := by
  intro p
  induction p with
  | nil => intro _; rfl
  | cons m ms ih =>
    intro hp
    have hm : m ≠ sep := hp m (List.mem_cons_self _ _)
    simp only [splitCharL, if_neg hm]
    rw [ih (fun x hx => hp x (List.mem_cons_of_mem _ hx))]

theorem digitsOf_all (l : List Char) (h0 : l ≠ [])
    (hd : ∀ x ∈ l, x.isDigit = true) : digitsOf l = some (digitsVal l) := by
  unfold digitsOf
  rw [if_pos ⟨h0, List.all_eq_true.mpr (fun x hx => hd x hx)⟩]

theorem pyInt_digits (l : List Char) (h0 : l ≠ [])
    (hd : ∀ x ∈ l, x.isDigit = true) :
    pyInt l = some ((digitsVal l : Nat) : Int) := by
  cases l with
  | nil => exact absurd rfl h0
  | cons ch rest =>
    have hch : ch.isDigit = true := hd ch (List.mem_cons_self _ _)
    have h1 : ch ≠ '+' := digit_ne ch '+' hch (by decide)
    have h2 : ch ≠ '-' := digit_ne ch '-' hch (by decide)
    simp only [pyInt]
    rw [if_neg h1, if_neg h2, digitsOf_all _ (by simp) hd]
    rfl

/-- Symbolic evaluation of `_parse_hunk_header` on a well-formed header
`@@ -a,b +c,d @@` with numerals `a`, `b`, `c`, `d`: the Hunk is
`(value c, value d)`. -/
theorem parseHunkHeader_withCount (a b c d : List Char)
    (ha : ∀ x ∈ a, x.isDigit = true) (hb : ∀ x ∈ b, x.isDigit = true)
    (hc : ∀ x ∈ c, x.isDigit = true) (hd : ∀ x ∈ d, x.isDigit = true)
    (hc0 : c ≠ []) (hd0 : d ≠ []) :
    parseHunkHeaderL ('@' :: '@' :: ' ' :: '-' :: (a ++ ',' ::
      (b ++ ' ' :: '+' :: (c ++ ',' :: (d ++ [' ', '@', '@']))))) =
      some ⟨(digitsVal c : Int), (digitsVal d : Int)⟩ := by
  have hstart : startsWithL atAtSpace ('@' :: '@' :: ' ' :: '-' :: (a ++ ',' ::
      (b ++ ' ' :: '+' :: (c ++ ',' :: (d ++ [' ', '@', '@']))))) = true := rfl
  have hNoAt : ∀ x ∈ ' ' :: '-' :: (a ++ ',' :: (b ++ ' ' :: '+' ::
      (c ++ ',' :: (d ++ [' '])))), x ≠ '@' := by
    simp only [List.forall_mem_cons, List.forall_mem_append,
      List.forall_mem_singleton]
    exact ⟨by decide, by decide,
      fun x hx => digit_ne x '@' (ha x hx) (by decide), by decide,
      fun x hx => digit_ne x '@' (hb x hx) (by decide), by decide, by decide,
      fun x hx => digit_ne x '@' (hc x hx) (by decide), by decide,
      fun x hx => digit_ne x '@' (hd x hx) (by decide), by decide⟩
  have hform : ' ' :: '-' :: (a ++ ',' :: (b ++ ' ' :: '+' ::
      (c ++ ',' :: (d ++ [' ', '@', '@'])))) =
      (' ' :: '-' :: (a ++ ',' :: (b ++ ' ' :: '+' ::
        (c ++ ',' :: (d ++ [' ']))))) ++ ('@' :: '@' :: []) ++ [] := by
    simp
  have hsplit1 : splitFirst atAt (('@' :: '@' :: ' ' :: '-' :: (a ++ ',' ::
      (b ++ ' ' :: '+' :: (c ++ ',' :: (d ++ [' ', '@', '@']))))).drop 2) =
      some ((' ' :: '-' :: (a ++ ',' :: (b ++ ' ' :: '+' ::
        (c ++ ',' :: (d ++ [' ']))))), []) := by
    show splitFirst atAt (' ' :: '-' :: (a ++ ',' :: (b ++ ' ' :: '+' ::
      (c ++ ',' :: (d ++ [' ', '@', '@']))))) = _
    rw [hform]
    exact splitFirst_eq '@' ['@'] _ [] hNoAt
  have hpart : part1AfterAtAt ('@' :: '@' :: ' ' :: '-' :: (a ++ ',' ::
      (b ++ ' ' :: '+' :: (c ++ ',' :: (d ++ [' ', '@', '@']))))) =
      ' ' :: '-' :: (a ++ ',' :: (b ++ ' ' :: '+' ::
        (c ++ ',' :: (d ++ [' '])))) := by
    unfold part1AfterAtAt
    rw [hsplit1]
  have hstrip : pyStripL (' ' :: '-' :: (a ++ ',' :: (b ++ ' ' :: '+' ::
      (c ++ ',' :: (d ++ [' ']))))) =
      '-' :: (a ++ ',' :: (b ++ ' ' :: '+' :: (c ++ ',' :: d))) := by
    show rstripL (lstripL _) = _
    rw [lstripL_cons_space _ _ (by decide), lstripL_cons_nonspace _ _ (by decide)]
    obtain ⟨d0, dl, hdd⟩ : ∃ d0 dl, d = d0 ++ [dl] :=
      ⟨_, _, (List.dropLast_append_getLast hd0).symm⟩
    have hdl : dl.isDigit = true := hd dl (by rw [hdd]; simp)
    rw [hdd]
    rw [show ('-' :: (a ++ ',' :: (b ++ ' ' :: '+' ::
        (c ++ ',' :: ((d0 ++ [dl]) ++ [' ']))))) =
      (('-' :: (a ++ ',' :: (b ++ ' ' :: '+' :: (c ++ ',' :: d0)))) ++ [dl])
        ++ [' '] from by simp]
    rw [rstripL_append_space _ ' ' (by decide)]
    rw [rstripL_append_nonspace _ dl (digit_not_space dl hdl)]
    simp
  have hp1 : ∀ x ∈ '-' :: (a ++ ',' :: b), x ≠ ' ' := by
    simp only [List.forall_mem_cons, List.forall_mem_append]
    exact ⟨by decide, fun x hx => digit_ne x ' ' (ha x hx) (by decide),
      by decide, fun x hx => digit_ne x ' ' (hb x hx) (by decide)⟩
  have hp2 : ∀ x ∈ '+' :: (c ++ ',' :: d), x ≠ ' ' := by
    simp only [List.forall_mem_cons, List.forall_mem_append]
    exact ⟨by decide, fun x hx => digit_ne x ' ' (hc x hx) (by decide),
      by decide, fun x hx => digit_ne x ' ' (hd x hx) (by decide)⟩
  have hsplitsp : splitCharL ' ' ('-' :: (a ++ ',' :: (b ++ ' ' :: '+' ::
      (c ++ ',' :: d)))) =
      [('-' :: (a ++ ',' :: b)), ('+' :: (c ++ ',' :: d))] := by
    rw [show ('-' :: (a ++ ',' :: (b ++ ' ' :: '+' :: (c ++ ',' :: d)))) =
      ('-' :: (a ++ ',' :: b)) ++ ' ' :: ('+' :: (c ++ ',' :: d)) from by simp]
    rw [splitCharL_append ' ' _ _ hp1, splitCharL_noSep ' ' _ hp2]
  have hfind : (splitCharL ' ' (pyStripL (part1AfterAtAt ('@' :: '@' :: ' '
      :: '-' :: (a ++ ',' :: (b ++ ' ' :: '+' :: (c ++ ',' ::
      (d ++ [' ', '@', '@'])))))))).find? (fun p => startsWithL ['+'] p) =
      some ('+' :: (c ++ ',' :: d)) := by
    rw [hpart, hstrip, hsplitsp]
    simp [List.find?, startsWithL]
  have hcont : (c ++ ',' :: d).contains ',' = true := by simp
  simp only [parseHunkHeaderL, hstart, if_true]
  rw [hfind]
  show (if (c ++ ',' :: d).contains ',' = true then
      match splitFirst [','] (c ++ ',' :: d) with
      | some pr =>
        match pyInt pr.1, pyInt pr.2 with
        | some s, some cnt => some (⟨s, cnt⟩ : Hunk)
        | _, _ => none
      | none => none
    else
      match pyInt (c ++ ',' :: d) with
      | some s => some (⟨s, 1⟩ : Hunk)
      | none => none) = some ⟨(digitsVal c : Int), (digitsVal d : Int)⟩
  rw [hcont]
  simp only [if_true]
  have hNoCommaC : ∀ x ∈ c, x ≠ ',' :=
    fun x hx => digit_ne x ',' (hc x hx) (by decide)
  rw [show c ++ ',' :: d = c ++ [','] ++ d from by simp,
    splitFirst_eq ',' [] c d hNoCommaC]
  show (match pyInt c, pyInt d with
    | some s, some cnt => some (⟨s, cnt⟩ : Hunk)
    | _, _ => none) = some ⟨(digitsVal c : Int), (digitsVal d : Int)⟩
  rw [pyInt_digits c hc0 hc, pyInt_digits d hd0 hd]

/-- Symbolic evaluation of `_parse_hunk_header` on a header with the count
omitted, `@@ -a,b +c @@`: the Hunk is `(value c, 1)`. -/
theorem parseHunkHeader_noCount (a b c : List Char)
    (ha : ∀ x ∈ a, x.isDigit = true) (hb : ∀ x ∈ b, x.isDigit = true)
    (hc : ∀ x ∈ c, x.isDigit = true) (hc0 : c ≠ []) :
    parseHunkHeaderL ('@' :: '@' :: ' ' :: '-' :: (a ++ ',' ::
      (b ++ ' ' :: '+' :: (c ++ [' ', '@', '@'])))) =
      some ⟨(digitsVal c : Int), 1⟩ := by
  have hstart : startsWithL atAtSpace ('@' :: '@' :: ' ' :: '-' :: (a ++ ','
      :: (b ++ ' ' :: '+' :: (c ++ [' ', '@', '@'])))) = true := rfl
  have hNoAt : ∀ x ∈ ' ' :: '-' :: (a ++ ',' :: (b ++ ' ' :: '+' ::
      (c ++ [' ']))), x ≠ '@' := by
    simp only [List.forall_mem_cons, List.forall_mem_append,
      List.forall_mem_singleton]
    exact ⟨by decide, by decide,
      fun x hx => digit_ne x '@' (ha x hx) (by decide), by decide,
      fun x hx => digit_ne x '@' (hb x hx) (by decide), by decide, by decide,
      fun x hx => digit_ne x '@' (hc x hx) (by decide), by decide⟩
  have hform : ' ' :: '-' :: (a ++ ',' :: (b ++ ' ' :: '+' ::
      (c ++ [' ', '@', '@']))) =
      (' ' :: '-' :: (a ++ ',' :: (b ++ ' ' :: '+' :: (c ++ [' '])))) ++
        ('@' :: '@' :: []) ++ [] := by
    simp
  have hsplit1 : splitFirst atAt (('@' :: '@' :: ' ' :: '-' :: (a ++ ',' ::
      (b ++ ' ' :: '+' :: (c ++ [' ', '@', '@'])))).drop 2) =
      some ((' ' :: '-' :: (a ++ ',' :: (b ++ ' ' :: '+' :: (c ++ [' '])))),
        []) := by
    show splitFirst atAt (' ' :: '-' :: (a ++ ',' :: (b ++ ' ' :: '+' ::
      (c ++ [' ', '@', '@'])))) = _
    rw [hform]
    exact splitFirst_eq '@' ['@'] _ [] hNoAt
  have hpart : part1AfterAtAt ('@' :: '@' :: ' ' :: '-' :: (a ++ ',' ::
      (b ++ ' ' :: '+' :: (c ++ [' ', '@', '@'])))) =
      ' ' :: '-' :: (a ++ ',' :: (b ++ ' ' :: '+' :: (c ++ [' ']))) := by
    unfold part1AfterAtAt
    rw [hsplit1]
  have hstrip : pyStripL (' ' :: '-' :: (a ++ ',' :: (b ++ ' ' :: '+' ::
      (c ++ [' '])))) = '-' :: (a ++ ',' :: (b ++ ' ' :: '+' :: c)) := by
    show rstripL (lstripL _) = _
    rw [lstripL_cons_space _ _ (by decide), lstripL_cons_nonspace _ _ (by decide)]
    obtain ⟨c0, cl, hcc⟩ : ∃ c0 cl, c = c0 ++ [cl] :=
      ⟨_, _, (List.dropLast_append_getLast hc0).symm⟩
    have hcl : cl.isDigit = true := hc cl (by rw [hcc]; simp)
    rw [hcc]
    rw [show ('-' :: (a ++ ',' :: (b ++ ' ' :: '+' :: ((c0 ++ [cl]) ++ [' '])))) =
      (('-' :: (a ++ ',' :: (b ++ ' ' :: '+' :: c0))) ++ [cl]) ++ [' ']
        from by simp]
    rw [rstripL_append_space _ ' ' (by decide)]
    rw [rstripL_append_nonspace _ cl (digit_not_space cl hcl)]
    simp
  have hp1 : ∀ x ∈ '-' :: (a ++ ',' :: b), x ≠ ' ' := by
    simp only [List.forall_mem_cons, List.forall_mem_append]
    exact ⟨by decide, fun x hx => digit_ne x ' ' (ha x hx) (by decide),
      by decide, fun x hx => digit_ne x ' ' (hb x hx) (by decide)⟩
  have hp2 : ∀ x ∈ '+' :: c, x ≠ ' ' := by
    simp only [List.forall_mem_cons]
    exact ⟨by decide, fun x hx => digit_ne x ' ' (hc x hx) (by decide)⟩
  have hsplitsp : splitCharL ' ' ('-' :: (a ++ ',' :: (b ++ ' ' :: '+' :: c)))
      = [('-' :: (a ++ ',' :: b)), ('+' :: c)] := by
    rw [show ('-' :: (a ++ ',' :: (b ++ ' ' :: '+' :: c))) =
      ('-' :: (a ++ ',' :: b)) ++ ' ' :: ('+' :: c) from by simp]
    rw [splitCharL_append ' ' _ _ hp1, splitCharL_noSep ' ' _ hp2]
  have hfind : (splitCharL ' ' (pyStripL (part1AfterAtAt ('@' :: '@' :: ' '
      :: '-' :: (a ++ ',' :: (b ++ ' ' :: '+' ::
      (c ++ [' ', '@', '@']))))))).find?
      (fun p => startsWithL ['+'] p) = some ('+' :: c) := by
    rw [hpart, hstrip, hsplitsp]
    simp [List.find?, startsWithL]
  have hcont : (c.contains ',') = false :=
    Bool.eq_false_iff.mpr (fun hx =>
      absurd (hc ',' (by simpa using hx)) (by decide))
  simp only [parseHunkHeaderL, hstart, if_true]
  rw [hfind]
  show (if c.contains ',' = true then
      match splitFirst [','] c with
      | some pr =>
        match pyInt pr.1, pyInt pr.2 with
        | some s, some cnt => some (⟨s, cnt⟩ : Hunk)
        | _, _ => none
      | none => none
    else
      match pyInt c with
      | some s => some (⟨s, 1⟩ : Hunk)
      | none => none) = some ⟨(digitsVal c : Int), 1⟩
  rw [hcont]
  simp only [Bool.false_eq_true, if_false]
  rw [pyInt_digits c hc0 hc]

/-- C8 (counterexample): the claim says every line that does not fit the
hunk-header grammar `@@ -a,b +c,d @@` yields no Hunk.  But the parser is
lenient: `"@@ +5,2 @@"` has no old-side `-a,b` range at all, yet a Hunk
`(5, 2)` is returned (the code merely looks for the first `+`-prefixed
token between the `@@` marks). -/
theorem c8_lenient_parse :
    parseHunkHeaderL (("@@ +5,2 @@").data) = some ⟨5, 2⟩ := rfl

/-- C8 (amended): for every well-formed header `@@ -a,b +c,d @@` (numerals
`a`, `b`, `c`, `d`, written out as character lists) the derived Hunk has
`new_start = value c` and `new_count = value d`, with `new_count = 1` when
`,d` is omitted; and a line that does not start with `"@@ "` never yields
a Hunk.  (Lines that do start with `"@@ "` but break the grammar may still
yield a Hunk, per the counterexample — they are never fatal either way.) -/
theorem c8_hunk_header_parsing :
    (∀ a b c d : List Char, (∀ x ∈ a, x.isDigit = true) →
      (∀ x ∈ b, x.isDigit = true) → (∀ x ∈ c, x.isDigit = true) →
      (∀ x ∈ d, x.isDigit = true) → c ≠ [] → d ≠ [] →
      parseHunkHeaderL ('@' :: '@' :: ' ' :: '-' :: (a ++ ',' ::
        (b ++ ' ' :: '+' :: (c ++ ',' :: (d ++ [' ', '@', '@']))))) =
        some ⟨(digitsVal c : Int), (digitsVal d : Int)⟩) ∧
    (∀ a b c : List Char, (∀ x ∈ a, x.isDigit = true) →
      (∀ x ∈ b, x.isDigit = true) → (∀ x ∈ c, x.isDigit = true) → c ≠ [] →
      parseHunkHeaderL ('@' :: '@' :: ' ' :: '-' :: (a ++ ',' ::
        (b ++ ' ' :: '+' :: (c ++ [' ', '@', '@'])))) =
        some ⟨(digitsVal c : Int), 1⟩) ∧
    (∀ l : List Char, startsWithL atAtSpace l = false →
      parseHunkHeaderL l = none) :=
  ⟨fun a b c d ha hb hc hd hc0 hd0 =>
     parseHunkHeader_withCount a b c d ha hb hc hd hc0 hd0,
   fun a b c ha hb hc hc0 => parseHunkHeader_noCount a b c ha hb hc hc0,
   fun l hl => by simp [parseHunkHeaderL, hl]⟩

/-- Witness for C8 at `@@ -1,2 +45,9 @@`, `@@ -1,2 +7 @@` and a line that
is no hunk header at all. -/
theorem c8_hunk_header_parsing_witness :
    parseHunkHeaderL ('@' :: '@' :: ' ' :: '-' :: (['1'] ++ ',' ::
      (['2'] ++ ' ' :: '+' :: (['4', '5'] ++ ',' ::
        (['9'] ++ [' ', '@', '@']))))) = some ⟨45, 9⟩ ∧
    parseHunkHeaderL ('@' :: '@' :: ' ' :: '-' :: (['1'] ++ ',' ::
      (['2'] ++ ' ' :: '+' :: (['7'] ++ [' ', '@', '@'])))) = some ⟨7, 1⟩ ∧
    parseHunkHeaderL (("-OLD line").data) = none :=
  ⟨(c8_hunk_header_parsing.1 ['1'] ['2'] ['4', '5'] ['9'] (by decide)
      (by decide) (by decide) (by decide) (by decide) (by decide)).trans
    (by decide),
   (c8_hunk_header_parsing.2.1 ['1'] ['2'] ['7'] (by decide) (by decide)
      (by decide) (by decide)).trans (by decide),
   c8_hunk_header_parsing.2.2 (("-OLD line").data) (by decide)⟩

/-! ### Support for C3: section-structured diffs -/

/-- The processing of a run of lines that are neither `diff --git ` markers
nor `+++ ` lines: each is fed to `_parse_hunk_header` and the successes
are appended, in textual order, to the pending hunk list. -/
theorem parseGo_inert :
    ∀ (ls rest : List (List Char)) (cur : Option (List Char)) hs acc,
      (∀ l ∈ ls, startsWithL diffGitPre l = false ∧
        startsWithL plusPlusPre l = false) →
      parseGo cur hs acc (ls ++ rest) =
        parseGo cur (hs ++ ls.filterMap parseHunkHeaderL) acc rest := by
  intro ls
  induction ls with
  | nil => intro rest cur hs acc _; simp
  | cons raw tl ih =>
    intro rest cur hs acc h
    obtain ⟨h1, h2⟩ := h raw (List.mem_cons_self _ _)
    have htl := fun l hl => h l (List.mem_cons_of_mem _ hl)
    show parseGo cur hs acc (raw :: (tl ++ rest)) = _
    simp only [parseGo, h1, h2, Bool.false_eq_true, if_false]
    cases hh : parseHunkHeaderL raw with
    | some hk =>
      show parseGo cur (hs ++ [hk]) acc (tl ++ rest) = _
      rw [ih rest cur (hs ++ [hk]) acc htl]
      rw [List.filterMap_cons_some hh]
      simp
    | none =>
      show parseGo cur hs acc (tl ++ rest) = _
      rw [ih rest cur hs acc htl]
      rw [List.filterMap_cons_none hh]

/-- The processing of a well-formed `+++ b/<path>` line: the current path
is set to `<path>`, pending hunks and output are untouched. -/
theorem parseGo_pppLine (p : List Char) (rest : List (List Char))
    (cur : Option (List Char)) (hs : List Hunk) (acc : List FileChange) :
    parseGo cur hs acc (('+' :: '+' :: '+' :: ' ' :: 'b' :: '/' :: p) :: rest)
      = parseGo (some p) hs acc rest := rfl

/-- The processing of a `diff --git ` marker line: the in-progress
`FileChange` (if a path was captured) is flushed and the state resets. -/
theorem parseGo_marker (m : List Char) (hm : startsWithL diffGitPre m = true)
    (rest : List (List Char)) (cur : Option (List Char)) (hs : List Hunk)
    (acc : List FileChange) :
    parseGo cur hs acc (m :: rest) =
      parseGo none [] (acc ++ flushFC cur hs) rest := by
  simp only [parseGo, hm, if_true]

/-- One per-file entry of a unified diff, as the claim C3 describes it: a
`diff --git ` marker line, then body lines among which exactly one is a
`+++ ` line and it has the well-formed shape `+++ b/<path>`. -/
structure DiffSection where
  marker : List Char
  pre : List (List Char)
  path : List Char
  post : List (List Char)

/-- The lines of a section: the marker, then the body with the
`+++ b/<path>` line in place. -/
def sectionLines (sec : DiffSection) : List (List Char) :=
  sec.marker ::
    (sec.pre ++ (('+' :: '+' :: '+' :: ' ' :: 'b' :: '/' :: sec.path) ::
      sec.post))

/-- The `FileChange` a section denotes: its path, and the hunks parsed
from its body lines in textual order. -/
def sectionFC (sec : DiffSection) : FileChange :=
  ⟨sec.path, (sec.pre ++ sec.post).filterMap parseHunkHeaderL⟩

/-- Well-formedness of a section: the marker line starts with
`diff --git `, and no other body line is a marker or a `+++ ` line. -/
def goodSection (sec : DiffSection) : Prop :=
  startsWithL diffGitPre sec.marker = true ∧
  ∀ l ∈ sec.pre ++ sec.post,
    startsWithL diffGitPre l = false ∧ startsWithL plusPlusPre l = false

instance : DecidablePred goodSection := fun _ =>
  inferInstanceAs (Decidable (_ ∧ _))

theorem parseGo_sections :
    ∀ (secs : List DiffSection) (cur : Option (List Char)) hs acc,
      (∀ s ∈ secs, goodSection s) →
      parseGo cur hs acc ((secs.map sectionLines).flatten) =
        (acc ++ flushFC cur hs) ++ secs.map sectionFC := by
  intro secs
  induction secs with
  | nil => intro cur hs acc _; simp [parseGo]
  | cons s rest ih =>
    intro cur hs acc h
    obtain ⟨hm, hbody⟩ := h s (List.mem_cons_self _ _)
    have hrest := fun x hx => h x (List.mem_cons_of_mem _ hx)
    have hpre : ∀ l ∈ s.pre, startsWithL diffGitPre l = false ∧
        startsWithL plusPlusPre l = false :=
      fun l hl => hbody l (List.mem_append_left _ hl)
    have hpost : ∀ l ∈ s.post, startsWithL diffGitPre l = false ∧
        startsWithL plusPlusPre l = false :=
      fun l hl => hbody l (List.mem_append_right _ hl)
    rw [List.map_cons, List.flatten_cons]
    rw [show sectionLines s ++ (rest.map sectionLines).flatten =
      s.marker :: (s.pre ++
        (('+' :: '+' :: '+' :: ' ' :: 'b' :: '/' :: s.path) ::
          (s.post ++ (rest.map sectionLines).flatten))) from by
        simp [sectionLines]]
    rw [parseGo_marker s.marker hm]
    rw [parseGo_inert s.pre _ none [] _ hpre]
    rw [parseGo_pppLine]
    rw [parseGo_inert s.post _ (some s.path) _ _ hpost]
    rw [ih (some s.path) _ _ hrest]
    simp [flushFC, sectionFC, List.filterMap_append]

/-- C3: a unified diff made of N well-formed per-file sections — each a
`diff --git ` marker followed by body lines exactly one of which is a
`+++ ` line, of the shape `+++ b/<path>` — parses to exactly N
`FileChange` entries, in the order the markers appear, each carrying its
section's path and its section's hunks in textual order. -/
theorem c3_parser_sections (secs : List DiffSection)
    (h : ∀ s ∈ secs, goodSection s) :
    parseUnifiedDiffLines ((secs.map sectionLines).flatten) =
      secs.map sectionFC := by
  unfold parseUnifiedDiffLines
  rw [parseGo_sections secs none [] [] h]
  simp [flushFC]

/-- Witness for C3 on a concrete two-file diff. -/
theorem c3_parser_sections_witness :
    (∀ s ∈ [(⟨("diff --git a/f b/f").data, [("--- a/f").data], ("f").data,
        [("@@ -1,1 +1,1 @@").data, ("-OLD").data, ("+NEW").data]⟩ :
        DiffSection),
      ⟨("diff --git a/g b/g").data, [("--- a/g").data], ("g").data,
        [("@@ -2,2 +3,4 @@").data]⟩], goodSection s) ∧
    parseUnifiedDiffLines (([(⟨("diff --git a/f b/f").data,
        [("--- a/f").data], ("f").data,
        [("@@ -1,1 +1,1 @@").data, ("-OLD").data, ("+NEW").data]⟩ :
        DiffSection),
      ⟨("diff --git a/g b/g").data, [("--- a/g").data], ("g").data,
        [("@@ -2,2 +3,4 @@").data]⟩].map sectionLines).flatten) =
      [⟨("f").data, [⟨1, 1⟩]⟩, ⟨("g").data, [⟨3, 4⟩]⟩] :=
  ⟨by decide,
   (c3_parser_sections _ (by decide)).trans (by decide)⟩

/-- C9: whenever the truncated diff text is blank, the empty-diff branch
of `run_review` fires: all four protocol artifacts are written empty, no
call is made to the external model boundary, and the written report's
executive summary contains the line `- No CONFIRMED findings.`. -/
theorem c9_empty_diff_short_circuit
    (date repoLabel headSha reviewType scope diff : List Char) (maxChars : Int)
    (hblank : pyStripL (pyTruncateL diff maxChars) = []) :
    ∃ rep : List Char,
      runReviewEmptyDiffStep date repoLabel headSha reviewType scope diff
        maxChars = some ⟨[], [], [], [], rep, 0⟩ ∧
      containsSubL (("- No CONFIRMED findings.").data) rep = true := by
  refine ⟨rstripL (joinNLL (reportLines date repoLabel headSha reviewType scope
    [] [])) ++ ['\n'], ?_, ?_⟩
  · unfold runReviewEmptyDiffStep
    rw [if_pos hblank]
    rfl
  · have hdec : ∃ tail : List (List Char),
        reportLines date repoLabel headSha reviewType scope [] [] =
          reportHeadLines date repoLabel headSha reviewType scope ++
            ((("- No CONFIRMED findings.").data) :: tail) ∧
        tail ≠ [] ∧ rstripL ('\n' :: joinNLL tail) ≠ [] :=
      ⟨_, rfl, by decide, by decide⟩
    obtain ⟨tail, hlines, htail, hstrip⟩ := hdec
    rw [hlines]
    rw [joinNLL_append _ _ (by simp [reportHeadLines]) (by simp)]
    rw [show (("- No CONFIRMED findings.").data) :: tail =
      [("- No CONFIRMED findings.").data] ++ tail from rfl]
    rw [joinNLL_append [("- No CONFIRMED findings.").data] tail (by simp) htail]
    have hgroup :
        joinNLL (reportHeadLines date repoLabel headSha reviewType scope) ++
          '\n' :: (joinNLL [("- No CONFIRMED findings.").data] ++
            '\n' :: joinNLL tail) =
        ((joinNLL (reportHeadLines date repoLabel headSha reviewType scope) ++
          ['\n']) ++ ("- No CONFIRMED findings.").data) ++
          ('\n' :: joinNLL tail) := by
      show joinNLL (reportHeadLines date repoLabel headSha reviewType scope) ++
          '\n' :: ((("- No CONFIRMED findings.").data) ++
            '\n' :: joinNLL tail) = _
      simp
    rw [hgroup, rstripL_append _ _ hstrip]
    have := containsSub_decomp (("- No CONFIRMED findings.").data)
      (joinNLL (reportHeadLines date repoLabel headSha reviewType scope) ++
        ['\n'])
      (rstripL ('\n' :: joinNLL tail) ++ ['\n'])
    simpa [List.append_assoc] using this

/-- Witness for C9 at a concrete input: the empty diff with a 50000
character budget. -/
theorem c9_empty_diff_short_circuit_witness :
    pyStripL (pyTruncateL [] 50000) = [] ∧
    ∃ rep : List Char,
      runReviewEmptyDiffStep (("2026-10-12").data) (("repo").data)
        (("NO_GIT").data) (("general").data) (("Diff file: x").data) []
        50000 = some ⟨[], [], [], [], rep, 0⟩ ∧
      containsSubL (("- No CONFIRMED findings.").data) rep = true :=
  ⟨by decide,
   c9_empty_diff_short_circuit (("2026-10-12").data) (("repo").data)
     (("NO_GIT").data) (("general").data) (("Diff file: x").data) [] 50000
     (by decide)⟩

end Scotsman
